import Mathlib

/-!
Verification of the SLADE `ArchiveManager` core (src/Archive/ArchiveManager.cpp)
against its natural-language specification.

The manager is embedded shallowly as a state machine:

* `AMState` holds everything the manager owns or observes: the heap of archive
  objects / entries / directory nodes (archive trees are owned by the registry,
  so an entry is live exactly while its archive is registered), the registry of
  open archives (`open_archives_`), the bookmark list, the base-resource slot,
  the persisted `archive_file` and `base_resource_path` tables, the emitted
  event list and the log of ResourceManager add/remove calls.
* `CodecEnv` packages the external collaborators: the per-format recognizers
  (`WadArchive::isWadArchive` etc. on file names and on entry data), the codec
  construction/parse steps, `EntryType::detectEntryType`, per-archive entry
  queries (`entry`, `findLast`, `findAll`) and file metadata used by the
  database upsert.  Codec parsing is modelled by letting the would-be parse
  result already sit in the heap; `openArchive` only decides whether to
  register it.

Recursive routines (`closeArchive` closing children re-entrantly,
`addArchive` auto-opening root wads which re-enters `openArchive`) are given
explicit fuel; the fuel only cuts off unreachable cyclic registries, and every
theorem below supplies enough fuel for the states it speaks about.
-/

namespace Slade

abbrev EntryId := Nat
abbrev ArchiveId := Nat
abbrev DirId := Nat

/-- An `ArchiveEntry`: name, detected content type id, owning archive
(`entry->parent()`), owning directory (`entry->parentDir()`) and an opaque
token standing for its raw data (`entry->data()`). -/
structure EntryData where
  name : String
  typeId : String
  parent : Option ArchiveId
  parentDir : DirId
  dat : Nat
deriving Repr, DecidableEq

/-- An `ArchiveDir` node: parent directory (none for a root), the entry that
represents the directory itself (`dirEntry()`) and the owning archive. -/
structure DirData where
  parentDir : Option DirId
  dirEnt : EntryId
  archive : ArchiveId
deriving Repr, DecidableEq

/-- An `Archive` object: filename, format id, the entry it was opened from
(`parentEntry()`, none for file-opened archives), its root directory and the
list of entries at the root (`rootDir()->allEntries()`). -/
structure ArchiveData where
  filename : String
  formatId : String
  parentEntry : Option EntryId
  rootDir : DirId
  rootEntries : List EntryId
deriving Repr, DecidableEq

/-- One record of the manager's registry (`ArchiveManager::OpenArchive`):
the archive, its resource flag and the weak list of child archives opened
from this archive's entries. -/
structure OpenArchive where
  archive : ArchiveId
  resource : Bool
  open_children : List ArchiveId
deriving Repr, DecidableEq

/-- Events the manager announces (`announce(...)` calls in ArchiveManager.cpp).
Indices are carried exactly as the C++ writes them into the event MemChunk. -/
inductive Event where
  | archive_added
  | archive_opened (index : Int)
  | archive_closing (index : Int)
  | archive_closed (index : Int)
  | bookmarks_changed
  | base_resource_changed
  | base_resource_path_added
  | base_resource_path_removed
deriving Repr, DecidableEq

/-- Calls the manager makes into the ResourceManager
(`App::resources().addArchive/removeArchive`). -/
inductive ResCall where
  | add (archive : ArchiveId)
  | remove (archive : ArchiveId)
deriving Repr, DecidableEq

/-- One row of the persisted `archive_file` table (keyed by `path`, which is
UNIQUE in the schema). -/
structure DBRow where
  size : Nat
  md5 : String
  format_id : String
  last_opened : Nat
  last_modified : Nat
deriving Repr, DecidableEq

/-- The full manager state. -/
structure AMState where
  heap_archives : List (ArchiveId × ArchiveData)
  heap_entries : List (EntryId × EntryData)
  heap_dirs : List (DirId × DirData)
  dead_entries : List EntryId
  open_archives : List OpenArchive
  bookmarks : List EntryId
  base_resource_archive : Option ArchiveId
  base_resource : Int
  db_archive_file : List (String × DBRow)
  db_base_resource_paths : List String
  events : List Event
  res_log : List ResCall
  global_error : String
deriving Repr, DecidableEq

/-- The external collaborators of the manager: format recognizers, codec
construction and parsing, entry type detection, per-archive queries and file
metadata.  All are read-only oracles (pure functions). -/
structure CodecEnv where
  dirExists : String → Bool
  auto_open_wads_root : Bool
  isWadArchive : String → Bool
  isZipArchive : String → Bool
  isResArchive : String → Bool
  isDatArchive : String → Bool
  isLibArchive : String → Bool
  isPakArchive : String → Bool
  isBSPArchive : String → Bool
  isGrpArchive : String → Bool
  isRffArchive : String → Bool
  isGobArchive : String → Bool
  isLfdArchive : String → Bool
  isHogArchive : String → Bool
  isADatArchive : String → Bool
  isWad2Archive : String → Bool
  isWadJArchive : String → Bool
  isWolfArchive : String → Bool
  isGZipArchive : String → Bool
  isBZip2Archive : String → Bool
  isTarArchive : String → Bool
  isDiskArchive : String → Bool
  isPodArchive : String → Bool
  isChasmBinArchive : String → Bool
  isSiNArchive : String → Bool
  isWadData : Nat → Bool
  isZipData : Nat → Bool
  isResData : Nat → Bool
  isLibData : Nat → Bool
  isDatData : Nat → Bool
  isPakData : Nat → Bool
  isBSPData : Nat → Bool
  isGrpData : Nat → Bool
  isRffData : Nat → Bool
  isGobData : Nat → Bool
  isLfdData : Nat → Bool
  isHogData : Nat → Bool
  isADatData : Nat → Bool
  isWad2Data : Nat → Bool
  isWadJData : Nat → Bool
  isWolfData : Nat → Bool
  isGZipData : Nat → Bool
  isBZip2Data : Nat → Bool
  isTarData : Nat → Bool
  isDiskData : Nat → Bool
  isPodData : Nat → Bool
  isChasmBinData : Nat → Bool
  isSiNData : Nat → Bool
  codecNew : String → String → ArchiveId
  codecOpenOk : String → String → Bool
  codecNewEntry : String → EntryId → ArchiveId
  codecOpenEntryOk : String → EntryId → Bool
  codecNewDir : String → ArchiveId
  codecOpenDirOk : String → Bool
  detectType : EntryId → String
  archiveEntry : ArchiveId → String → Option EntryId
  findLast : ArchiveId → Nat → Option EntryId
  findAll : ArchiveId → Nat → List EntryId
  fileSize : String → Nat
  fileMD5 : String → String
  fileModifiedTime : String → Nat
  now : Nat

/-- Heap lookup of an archive object. -/
def archiveDataOf (s : AMState) (a : ArchiveId) : Option ArchiveData :=
  s.heap_archives.lookup a

/-- Heap lookup of an entry. -/
def entryDataOf (s : AMState) (e : EntryId) : Option EntryData :=
  s.heap_entries.lookup e

/-- Heap lookup of a directory node. -/
def dirDataOf (s : AMState) (d : DirId) : Option DirData :=
  s.heap_dirs.lookup d

/-- `archive->filename()` (empty for a dangling id; well-formed states keep
every registered archive in the heap). -/
def filenameOf (s : AMState) (a : ArchiveId) : String :=
  match archiveDataOf s a with
  | some ad => ad.filename
  | none => ""

/-- `archive->formatId()`. -/
def formatIdOf (s : AMState) (a : ArchiveId) : String :=
  match archiveDataOf s a with
  | some ad => ad.formatId
  | none => ""

/-- `archive->parentEntry()`. -/
def parentEntryOf (s : AMState) (a : ArchiveId) : Option EntryId :=
  match archiveDataOf s a with
  | some ad => ad.parentEntry
  | none => none

/-- `archive->rootDir()->allEntries()`. -/
def rootEntriesOf (s : AMState) (a : ArchiveId) : List EntryId :=
  match archiveDataOf s a with
  | some ad => ad.rootEntries
  | none => []

/-- The archive that owns an entry (`entry->parent()`), if the entry exists. -/
def entryOwner (s : AMState) (e : EntryId) : Option ArchiveId :=
  match entryDataOf s e with
  | some ed => ed.parent
  | none => none

/-- Whether an archive object is currently in the registry.  The manager's
registry record is the owning reference of a managed archive, so this is also
the liveness of the object seen by weak references. -/
def isOpen (s : AMState) (a : ArchiveId) : Bool :=
  s.open_archives.any (fun oa => oa.archive == a)

/-- Liveness of an entry: its id has not been invalidated (directory removal)
and its owning archive is still registered (archive trees die with their
archive's registry record). -/
def entryLive (s : AMState) (e : EntryId) : Bool :=
  !(s.dead_entries.contains e) &&
    match entryDataOf s e with
    | some ed =>
      match ed.parent with
      | some a => isOpen s a
      | none => false
    | none => false

/-- `weak_ptr<ArchiveEntry>::lock()` for a bookmark. -/
def lockEntry (s : AMState) (e : EntryId) : Option EntryData :=
  if entryLive s e then entryDataOf s e else none

/-- `weak_ptr<Archive>::lock()` for a child-archive link. -/
def lockArchive (s : AMState) (a : ArchiveId) : Option ArchiveId :=
  if isOpen s a then some a else none

/-- `announce(event)`: synchronous event emission, recorded in order. -/
def announce (s : AMState) (ev : Event) : AMState :=
  { s with events := s.events ++ [ev] }

def archiveIndexAux : List OpenArchive → ArchiveId → Nat → Int
  | [], _, _ => -1
  | oa :: rest, a, i => if oa.archive == a then (i : Int) else archiveIndexAux rest a (i + 1)

/-- `ArchiveManager::archiveIndex`: the registry position of an archive, or -1. -/
def archiveIndex (s : AMState) (a : ArchiveId) : Int :=
  archiveIndexAux s.open_archives a 0

/-- `archiveIndex` on a possibly-null archive pointer (null is never found). -/
def archiveIndexOpt (s : AMState) : Option ArchiveId → Int
  | none => -1
  | some a => archiveIndex s a

/-- `ArchiveManager::getArchive(string_view filename)`: the first registered
archive with a matching filename. -/
def getArchiveByName (s : AMState) (fn : String) : Option ArchiveId :=
  match s.open_archives.find? (fun oa => filenameOf s oa.archive == fn) with
  | some oa => some oa.archive
  | none => none

/-- The registry record at a position (junk default outside bounds; callers
check bounds first, as the C++ does). -/
def recordAt (s : AMState) (i : Nat) : OpenArchive :=
  (s.open_archives[i]?).getD ⟨0, false, []⟩

/-! ## Bookmark store -/

/-- `ArchiveManager::addBookmark`: no-op if some bookmark already locks to
this exact entry (`bookmark.lock() == entry`: the weak reference resolves and
is the same object), else append and announce. -/
def addBookmark (s : AMState) (e : EntryId) : AMState :=
  if s.bookmarks.any (fun b => entryLive s b && b == e) then s
  else announce { s with bookmarks := s.bookmarks ++ [e] } .bookmarks_changed

/-- `ArchiveManager::deleteBookmark(ArchiveEntry*)`: remove the first bookmark
whose lock resolves to this exact entry, announcing on success. -/
def deleteBookmarkEntry (s : AMState) (e : EntryId) : AMState × Bool :=
  match s.bookmarks.findIdx? (fun b => entryLive s b && b == e) with
  | some i =>
    (announce { s with bookmarks := s.bookmarks.eraseIdx i } .bookmarks_changed, true)
  | none => (s, false)

/-- Removal condition of `ArchiveManager::deleteBookmarksInArchive`: the
bookmark no longer resolves, or its entry's parent is the closing archive. -/
def bookmarkPruneArchive (s : AMState) (aid : ArchiveId) (b : EntryId) : Bool :=
  match lockEntry s b with
  | none => true
  | some ed => ed.parent == some aid

/-- `ArchiveManager::deleteBookmarksInArchive`: erase every bookmark that is
dead or lives in the given archive; announce iff anything was erased. -/
def deleteBookmarksInArchive (s : AMState) (aid : ArchiveId) : AMState × Bool :=
  let bs := s.bookmarks.filter (fun b => !bookmarkPruneArchive s aid b)
  let removed := bs.length != s.bookmarks.length
  ({ s with bookmarks := bs,
            events := if removed then s.events ++ [Event.bookmarks_changed] else s.events },
   removed)

/-- The ancestor walk of `ArchiveManager::deleteBookmarksInDir`:
`while (anode != root && !remove) { if (anode == node) remove = true; else anode = anode->parent(); }`.
Fuel bounds the walk (any acyclic chain is shorter than the dir heap). -/
def walkPasses (dirs : List (DirId × DirData)) (rootId nodeId : DirId) : Nat → DirId → Bool
  | 0, _ => false
  | fuel + 1, anode =>
    if anode == rootId then false
    else if anode == nodeId then true
    else
      match (dirs.lookup anode).bind (fun d => d.parentDir) with
      | some p => walkPasses dirs rootId nodeId fuel p
      | none => false

/-- Removal condition of the loop in `deleteBookmarksInDir`: dead bookmarks
are always removed; live ones are removed iff they belong to the node's
archive and the ancestor walk from their directory reaches the node before
the root. -/
def bookmarkPruneDir (s : AMState) (aid : ArchiveId) (rootId nodeId : DirId) (b : EntryId) : Bool :=
  match lockEntry s b with
  | none => true
  | some ed =>
    ed.parent == some aid
      && walkPasses s.heap_dirs rootId nodeId (s.heap_dirs.length + 1) ed.parentDir

/-- `ArchiveManager::deleteBookmarksInDir`: first delete the bookmark of the
directory's own entry (`deleteBookmark(node->dirEntry())`, which announces by
itself), then erase every bookmark that is dead or lives under the removed
directory; announce again iff anything was removed in either step. -/
def deleteBookmarksInDir (s : AMState) (nodeId : DirId) : AMState × Bool :=
  match dirDataOf s nodeId with
  | none => (s, false)
  | some nd =>
    let rootId : DirId :=
      match archiveDataOf s nd.archive with
      | some ad => ad.rootDir
      | none => 0
    let r1 := deleteBookmarkEntry s nd.dirEnt
    let s1 := r1.1
    let bs := s1.bookmarks.filter (fun b => !bookmarkPruneDir s1 nd.archive rootId nodeId b)
    let removed := r1.2 || bs.length != s1.bookmarks.length
    ({ s1 with bookmarks := bs,
               events := if removed then s1.events ++ [Event.bookmarks_changed] else s1.events },
     removed)

/-! ## Resource lookup chain -/

/-- The loop of `ArchiveManager::getResourceEntry` / `findResourceEntry` over
the open-archive registry, in registry order: skip non-resource records, skip
the ignored archive, return the first hit of the per-archive query. -/
def resScan (query : ArchiveId → Option EntryId) (ignore : Option ArchiveId) :
    List OpenArchive → Option EntryId
  | [] => none
  | oa :: rest =>
    if !oa.resource then resScan query ignore rest
    else if some oa.archive == ignore then resScan query ignore rest
    else
      match query oa.archive with
      | some e => some e
      | none => resScan query ignore rest

/-- `ArchiveManager::getResourceEntry`: open resource archives in registry
order, then (only if nothing matched) the base resource archive. -/
def getResourceEntry (env : CodecEnv) (s : AMState) (name : String)
    (ignore : Option ArchiveId) : Option EntryId :=
  match resScan (fun a => env.archiveEntry a name) ignore s.open_archives with
  | some e => some e
  | none =>
    match s.base_resource_archive with
    | some b => env.archiveEntry b name
    | none => none

/-- `ArchiveManager::findResourceEntry`: like `getResourceEntry` but with the
`findLast` query. -/
def findResourceEntry (env : CodecEnv) (s : AMState) (opt : Nat)
    (ignore : Option ArchiveId) : Option EntryId :=
  match resScan (fun a => env.findLast a opt) ignore s.open_archives with
  | some e => some e
  | none =>
    match s.base_resource_archive with
    | some b => env.findLast b opt
    | none => none

/-- `ArchiveManager::findAllResourceEntries`: base resource archive first,
then matches accumulated over the open registry in order, skipping
non-resource and ignored archives. -/
def findAllResourceEntries (env : CodecEnv) (s : AMState) (opt : Nat)
    (ignore : Option ArchiveId) : List EntryId :=
  let base :=
    match s.base_resource_archive with
    | some b => env.findAll b opt
    | none => []
  s.open_archives.foldl
    (fun acc oa =>
      if !oa.resource then acc
      else if some oa.archive == ignore then acc
      else acc ++ env.findAll oa.archive opt)
    base

/-! ## Resource flag toggle -/

/-- `ArchiveManager::setArchiveResource`: update the record's flag and call
into the ResourceManager only on an actual transition. -/
def setArchiveResource (s : AMState) (aid : ArchiveId) (resource : Bool) : AMState :=
  let index := archiveIndex s aid
  if index < 0 then s
  else
    let i := index.toNat
    let was := (recordAt s i).resource
    let s1 := { s with open_archives := s.open_archives.set i { recordAt s i with resource := resource } }
    if resource && !was then { s1 with res_log := s1.res_log ++ [ResCall.add aid] }
    else if !resource && was then { s1 with res_log := s1.res_log ++ [ResCall.remove aid] }
    else s1

/-! ## Database -/

/-- Upsert of one row into the persisted `archive_file` table.
Modelled from the spec: the table itself lives in the external Persistence
Layer; per the schema `archive_file(path UNIQUE, ...)` and the
`REPLACE INTO archive_file` statement, the row replaces any row with the same
path and is appended otherwise. -/
def dbUpsert (tbl : List (String × DBRow)) (path : String) (row : DBRow) :
    List (String × DBRow) :=
  if tbl.any (fun pr => pr.1 == path) then
    tbl.map (fun pr => if pr.1 == path then (path, row) else pr)
  else tbl ++ [(path, row)]

/-- `ArchiveManager::addOrUpdateArchiveDB`: build the row (file metadata for
regular archives, zeros for directory archives) and upsert it by path. -/
def addOrUpdateArchiveDB (env : CodecEnv) (s : AMState) (file_path : String)
    (a : ArchiveId) : AMState :=
  let row : DBRow :=
    if formatIdOf s a != "folder" then
      { size := env.fileSize file_path, md5 := env.fileMD5 file_path,
        format_id := formatIdOf s a, last_opened := env.now,
        last_modified := env.fileModifiedTime file_path }
    else
      { size := 0, md5 := "", format_id := formatIdOf s a,
        last_opened := env.now, last_modified := 0 }
  { s with db_archive_file := dbUpsert s.db_archive_file file_path row }

/-- `ArchiveManager::getBaseResourcePath`: the persisted base-resource path at
a row position, empty if out of range. -/
def getBaseResourcePath (s : AMState) (index : Nat) : String :=
  (s.db_base_resource_paths[index]?).getD ""

/-! ## Close -/

/-- Replace the child list of the registry record at a position. -/
def setChildren (s : AMState) (i : Nat) (cs : List ArchiveId) : AMState :=
  match s.open_archives[i]? with
  | some oa => { s with open_archives := s.open_archives.set i { oa with open_children := cs } }
  | none => s

/-- Erase from the record at position `i` the first child link that locks to
the given archive (`it->lock() == open_archives_[index].archive`). -/
def removeChildLink (s : AMState) (i : Nat) (aid : ArchiveId) : AMState :=
  match s.open_archives[i]? with
  | some oa =>
    let oa2 := { oa with open_children := oa.open_children.eraseP (fun c => lockArchive s c == some aid) }
    { s with open_archives := s.open_archives.set i oa2 }
  | none => s

/-- `ArchiveManager::closeArchive(int index)`, with explicit fuel for the
recursive closing of child archives.  Follows the C++ step for step:
bounds check; announce closing; prune bookmarks; ResourceManager remove;
snapshot and clear the child list, then re-enter `closeArchive` for each
still-live child; unlink from the parent record's child list; erase the
record; announce closed. -/
def closeRec : Nat → AMState → Int → AMState × Bool
  | 0, s, _ => (s, false)
  | fuel + 1, s, index =>
    if index < 0 || (s.open_archives.length : Int) ≤ index then (s, false)
    else
      let i := index.toNat
      let s1 := announce s (Event.archive_closing index)
      let s2 := (deleteBookmarksInArchive s1 (recordAt s1 i).archive).1
      let s3 := { s2 with res_log := s2.res_log ++ [ResCall.remove (recordAt s2 i).archive] }
      let children := (recordAt s3 i).open_children
      let s4 := setChildren s3 i []
      let s5 := children.foldl
        (fun st c =>
          let ci := archiveIndexOpt st (lockArchive st c)
          if 0 ≤ ci then (closeRec fuel st ci).1 else st)
        s4
      let aid := (recordAt s5 i).archive
      let s6 :=
        match parentEntryOf s5 aid with
        | none => s5
        | some pe =>
          match (entryDataOf s5 pe).bind (fun ed => ed.parent) with
          | none => s5
          | some gp =>
            let pi := archiveIndex s5 gp
            if 0 ≤ pi then removeChildLink s5 pi.toNat aid else s5
      let s7 := { s6 with open_archives := s6.open_archives.eraseIdx i }
      (announce s7 (Event.archive_closed index), true)

/-- `ArchiveManager::closeArchive(int)`: fuel one more than the registry size
is always enough, since each nesting level of the recursion strictly descends
the (acyclic, registry-bounded) child forest. -/
def closeArchive (s : AMState) (index : Int) : AMState × Bool :=
  closeRec (s.open_archives.length + 1) s index

/-! ## Open -/

/-- `StrUtil::endsWithCI`. -/
def endsWithCI (str suffix : String) : Bool :=
  str.toLower.endsWith suffix.toLower

/-- The format-recognizer chain of `ArchiveManager::openArchive(string_view)`,
in the exact dispatch order of the source; yields the format id of the codec
that would be constructed. -/
def detectFormatPath (env : CodecEnv) (fn : String) : Option String :=
  if env.isWadArchive fn then some "wad"
  else if env.isZipArchive fn then some "zip"
  else if env.isResArchive fn then some "res"
  else if env.isDatArchive fn then some "dat"
  else if env.isLibArchive fn then some "lib"
  else if env.isPakArchive fn then some "pak"
  else if env.isBSPArchive fn then some "bsp"
  else if env.isGrpArchive fn then some "grp"
  else if env.isRffArchive fn then some "rff"
  else if env.isGobArchive fn then some "gob"
  else if env.isLfdArchive fn then some "lfd"
  else if env.isHogArchive fn then some "hog"
  else if env.isADatArchive fn then some "adat"
  else if env.isWad2Archive fn then some "wad2"
  else if env.isWadJArchive fn then some "wadj"
  else if env.isWolfArchive fn then some "wolf"
  else if env.isGZipArchive fn then some "gzip"
  else if env.isBZip2Archive fn then some "bzip2"
  else if env.isTarArchive fn then some "tar"
  else if env.isDiskArchive fn then some "disk"
  else if env.isPodArchive fn then some "pod"
  else if env.isChasmBinArchive fn then some "chasm_bin"
  else if env.isSiNArchive fn then some "sin"
  else none

/-- The recognizer chain of `ArchiveManager::openArchive(ArchiveEntry*)` on
the entry's data, in the source's order (note Res/Lib/Dat differs from the
path chain, and Pod additionally requires a `.pod` name suffix). -/
def detectFormatEntry (env : CodecEnv) (name : String) (dat : Nat) : Option String :=
  if env.isWadData dat then some "wad"
  else if env.isZipData dat then some "zip"
  else if env.isResData dat then some "res"
  else if env.isLibData dat then some "lib"
  else if env.isDatData dat then some "dat"
  else if env.isPakData dat then some "pak"
  else if env.isBSPData dat then some "bsp"
  else if env.isGrpData dat then some "grp"
  else if env.isRffData dat then some "rff"
  else if env.isGobData dat then some "gob"
  else if env.isLfdData dat then some "lfd"
  else if env.isHogData dat then some "hog"
  else if env.isADatData dat then some "adat"
  else if env.isWad2Data dat then some "wad2"
  else if env.isWadJData dat then some "wadj"
  else if env.isWolfData dat then some "wolf"
  else if env.isGZipData dat then some "gzip"
  else if env.isBZip2Data dat then some "bzip2"
  else if env.isTarData dat then some "tar"
  else if env.isDiskData dat then some "disk"
  else if endsWithCI name ".pod" && env.isPodData dat then some "pod"
  else if env.isChasmBinData dat then some "chasm_bin"
  else if env.isSiNData dat then some "sin"
  else none

/-- Overwrite an entry's detected content type (`EntryType::detectEntryType`). -/
def setEntryType (s : AMState) (e : EntryId) (t : String) : AMState :=
  { s with heap_entries :=
      s.heap_entries.map (fun p => if p.1 == e then (p.1, { p.2 with typeId := t }) else p) }

/-- `entry->type()->id()`, empty if the entry is unknown to the heap. -/
def typeIdOf (s : AMState) (e : EntryId) : String :=
  match entryDataOf s e with
  | some ed => ed.typeId
  | none => ""

/-- Append a child link to the registry record at a position (the
`open_archives_[index_parent].open_children.emplace_back(...)` step). -/
def addChildLink (s : AMState) (i : Nat) (c : ArchiveId) : AMState :=
  match s.open_archives[i]? with
  | some oa => { s with open_archives := s.open_archives.set i { oa with open_children := oa.open_children ++ [c] } }
  | none => s

/-- The two mutually re-entrant manager operations, tied by fuel:
`addArchive` may auto-open root wads, which re-enters `openArchive(entry)`,
which on success re-enters `addArchive`. -/
structure OpenOps where
  addArchive : AMState → Option ArchiveId → AMState × Bool
  openEntry : AMState → Option EntryId → Bool → Bool → AMState × Option ArchiveId

/-- `ArchiveManager::addArchive` at one fuel level: append a registry record
(resource = true), announce `archive_added`, register with the
ResourceManager, and — for zip/folder archives when `auto_open_wads_root` is
set — detect and silently open every root entry of type "wad". -/
def addArchiveStep (env : CodecEnv)
    (openEntryRec : AMState → Option EntryId → Bool → Bool → AMState × Option ArchiveId) :
    AMState → Option ArchiveId → AMState × Bool := fun s a? =>
  match a? with
  | none => (s, false)
  | some aid =>
    let s1 := { s with open_archives := s.open_archives ++ [⟨aid, true, []⟩] }
    let s2 := announce s1 Event.archive_added
    let s3 := { s2 with res_log := s2.res_log ++ [ResCall.add aid] }
    let s4 :=
      if (formatIdOf s3 aid == "zip" || formatIdOf s3 aid == "folder") && env.auto_open_wads_root then
        (rootEntriesOf s3 aid).foldl
          (fun st e =>
            let st1 := if typeIdOf st e == "unknown" then setEntryType st e (env.detectType e) else st
            if typeIdOf st1 e == "wad" then (openEntryRec st1 (some e) true true).1 else st1)
          s3
      else s3
    (s4, true)

/-- `ArchiveManager::openArchive(ArchiveEntry*)` at one fuel level: return the
already-open archive for this entry if any (announcing unless silent);
otherwise run the data recognizer chain, let the codec parse, and if managed
link the new archive into the parent's record, `addArchive` it and announce. -/
def openEntryStep (env : CodecEnv)
    (addArchiveRec : AMState → Option ArchiveId → AMState × Bool) :
    AMState → Option EntryId → Bool → Bool → AMState × Option ArchiveId := fun s e? manage silent =>
  match e? with
  | none => (s, none)
  | some eid =>
    match s.open_archives.find? (fun oa => parentEntryOf s oa.archive == some eid) with
    | some oa =>
      let s1 := if !silent then announce s (Event.archive_opened (archiveIndex s oa.archive)) else s
      (s1, some oa.archive)
    | none =>
      match entryDataOf s eid with
      | none => (s, none)
      | some ed =>
        match detectFormatEntry env ed.name ed.dat with
        | none => ({ s with global_error := "Unsupported or invalid Archive format" }, none)
        | some fmt =>
          let nid := env.codecNewEntry fmt eid
          if env.codecOpenEntryOk fmt eid then
            if manage then
              let index_parent : Int :=
                match ed.parent with
                | some p => archiveIndex s p
                | none => -1
              let s1 := if 0 ≤ index_parent then addChildLink s index_parent.toNat nid else s
              let s2 := (addArchiveRec s1 (some nid)).1
              let s3 := if !silent then announce s2 (Event.archive_opened (archiveIndex s2 nid)) else s2
              (s3, some nid)
            else (s, some nid)
          else (s, none)

/-- The fuel tower tying `addArchive` and `openArchive(ArchiveEntry*)`. -/
def openOps (env : CodecEnv) : Nat → OpenOps
  | 0 => ⟨fun s _ => (s, false), fun s _ _ _ => (s, none)⟩
  | fuel + 1 =>
    ⟨addArchiveStep env (openOps env fuel).openEntry,
     openEntryStep env (openOps env fuel).addArchive⟩

/-- `ArchiveManager::addArchive`; nesting of auto-opened archives is bounded
by the entry count, so that fuel always suffices. -/
def addArchive (env : CodecEnv) (s : AMState) (a? : Option ArchiveId) : AMState × Bool :=
  (openOps env (s.heap_entries.length + 1)).addArchive s a?

/-- `ArchiveManager::openArchive(ArchiveEntry*, manage, silent)`. -/
def openArchiveEntry (env : CodecEnv) (s : AMState) (e? : Option EntryId)
    (manage silent : Bool) : AMState × Option ArchiveId :=
  (openOps env (s.heap_entries.length + 1)).openEntry s e? manage silent

/-- `ArchiveManager::openDirArchive`: return the registered archive with the
same path if any, else let the directory codec parse and (if managed)
register, upsert the database row and announce. -/
def openDirArchive (env : CodecEnv) (fuel : Nat) (s : AMState) (dir : String)
    (manage silent : Bool) : AMState × Option ArchiveId :=
  match getArchiveByName s dir with
  | some a =>
    let s1 := if !silent then announce s (Event.archive_opened (archiveIndex s a)) else s
    (s1, some a)
  | none =>
    let nid := env.codecNewDir dir
    if env.codecOpenDirOk dir then
      if manage then
        let s1 := ((openOps env fuel).addArchive s (some nid)).1
        let s2 := addOrUpdateArchiveDB env s1 dir nid
        let s3 := if !silent then announce s2 (Event.archive_opened (archiveIndex s2 nid)) else s2
        (s3, some nid)
      else (s, some nid)
    else (s, none)

/-- `ArchiveManager::openArchive(string_view, manage, silent)`: directory
paths delegate to `openDirArchive`; an already-registered filename returns
the existing instance (announcing unless silent); otherwise the recognizer
chain picks a codec, the codec parses, and only on success is anything
registered, upserted or announced. -/
def openArchivePath (env : CodecEnv) (fuel : Nat) (s : AMState) (fn : String)
    (manage silent : Bool) : AMState × Option ArchiveId :=
  if env.dirExists fn then openDirArchive env fuel s fn manage silent
  else
    match getArchiveByName s fn with
    | some a =>
      let s1 := if !silent then announce s (Event.archive_opened (archiveIndex s a)) else s
      (s1, some a)
    | none =>
      match detectFormatPath env fn with
      | none => ({ s with global_error := "Unsupported or invalid Archive format" }, none)
      | some fmt =>
        let nid := env.codecNew fmt fn
        if env.codecOpenOk fmt fn then
          if manage then
            let s1 := ((openOps env fuel).addArchive s (some nid)).1
            let s2 := addOrUpdateArchiveDB env s1 fn nid
            let s3 := if !silent then announce s2 (Event.archive_opened (archiveIndex s2 nid)) else s2
            (s3, some nid)
          else (s, some nid)
        else (s, none)

/-! ## Base resource -/

/-- `ArchiveManager::openBaseResource`: no-op success if the index is already
active; otherwise release the current base archive (ResourceManager remove),
resolve the persisted path (indices below zero resolve to the empty path),
clear the selection on an empty path (announcing the change, returning
false), restrict the format to wad/zip (hard failure otherwise, no
announcement), and on codec success install the new base archive, set the
selection, register it and announce. -/
def openBaseResource (env : CodecEnv) (s : AMState) (index : Int) : AMState × Bool :=
  if s.base_resource_archive.isSome && s.base_resource == index then (s, true)
  else
    let s1 :=
      match s.base_resource_archive with
      | some b => { s with res_log := s.res_log ++ [ResCall.remove b], base_resource_archive := none }
      | none => s
    let filename := if 0 ≤ index then getBaseResourcePath s1 index.toNat else ""
    if filename == "" then
      (announce { s1 with base_resource := -1 } Event.base_resource_changed, false)
    else
      match (if env.isWadArchive filename then some "wad"
             else if env.isZipArchive filename then some "zip" else none : Option String) with
      | none => (s1, false)
      | some fmt =>
        let bid := env.codecNew fmt filename
        if env.codecOpenOk fmt filename then
          let s2 := { s1 with base_resource_archive := some bid, base_resource := index,
                              res_log := s1.res_log ++ [ResCall.add bid] }
          (announce s2 Event.base_resource_changed, true)
        else (announce s1 Event.base_resource_changed, false)

/-- Claim-side formulation of the single-result open-archive pass: the first
hit of the query over the registry in order, restricted to resource archives
other than the ignored one. -/
def firstOpenResourceMatch (s : AMState) (query : ArchiveId → Option EntryId)
    (ignore : Option ArchiveId) : Option EntryId :=
  s.open_archives.findSome? (fun oa =>
    if oa.resource && !(some oa.archive == ignore) then query oa.archive else none)

/-- The state after `openBaseResource` has released the currently active base
archive (the step before a new selection is attempted). -/
def clearedBase (s : AMState) : AMState :=
  match s.base_resource_archive with
  | some b => { s with res_log := s.res_log ++ [ResCall.remove b], base_resource_archive := none }
  | none => s

/-- `entry->parentDir()`, with a junk default for unknown entries. -/
def parentDirOfEntry (s : AMState) (b : EntryId) : DirId :=
  match entryDataOf s b with
  | some ed => ed.parentDir
  | none => 0

/-- Claim-side formulation of the spec's ancestor walk: the directory chain
from a directory upward toward the archive root, the root itself excluded
(the walk stops on reaching it). -/
def underChain (dirs : List (DirId × DirData)) (root : DirId) : Nat → DirId → List DirId
  | 0, _ => []
  | fuel + 1, d =>
    if d == root then []
    else
      d :: (match (dirs.lookup d).bind (fun dd => dd.parentDir) with
            | some p => underChain dirs root fuel p
            | none => [])

/-- Claim-side keep condition for directory pruning: the bookmark still
resolves, and it is not an entry of the node's archive whose ancestor chain
passes through the removed node. -/
def keptOnDirDelete (s : AMState) (archive : ArchiveId) (root nodeId : DirId)
    (b : EntryId) : Bool :=
  entryLive s b &&
    !((entryOwner s b == some archive) &&
      (underChain s.heap_dirs root (s.heap_dirs.length + 1) (parentDirOfEntry s b)).contains nodeId)

/-! ## Concrete states and environments used to witness the theorems -/

/-- A manager with nothing open and empty persistence. -/
def emptyState : AMState := ⟨[], [], [], [], [], [], none, -1, [], [], [], [], ""⟩

/-- An environment in which every recognizer declines, every codec parse
fails and every query is empty. -/
def trivEnv : CodecEnv where
  dirExists := fun _ => false
  auto_open_wads_root := false
  isWadArchive := fun _ => false
  isZipArchive := fun _ => false
  isResArchive := fun _ => false
  isDatArchive := fun _ => false
  isLibArchive := fun _ => false
  isPakArchive := fun _ => false
  isBSPArchive := fun _ => false
  isGrpArchive := fun _ => false
  isRffArchive := fun _ => false
  isGobArchive := fun _ => false
  isLfdArchive := fun _ => false
  isHogArchive := fun _ => false
  isADatArchive := fun _ => false
  isWad2Archive := fun _ => false
  isWadJArchive := fun _ => false
  isWolfArchive := fun _ => false
  isGZipArchive := fun _ => false
  isBZip2Archive := fun _ => false
  isTarArchive := fun _ => false
  isDiskArchive := fun _ => false
  isPodArchive := fun _ => false
  isChasmBinArchive := fun _ => false
  isSiNArchive := fun _ => false
  isWadData := fun _ => false
  isZipData := fun _ => false
  isResData := fun _ => false
  isLibData := fun _ => false
  isDatData := fun _ => false
  isPakData := fun _ => false
  isBSPData := fun _ => false
  isGrpData := fun _ => false
  isRffData := fun _ => false
  isGobData := fun _ => false
  isLfdData := fun _ => false
  isHogData := fun _ => false
  isADatData := fun _ => false
  isWad2Data := fun _ => false
  isWadJData := fun _ => false
  isWolfData := fun _ => false
  isGZipData := fun _ => false
  isBZip2Data := fun _ => false
  isTarData := fun _ => false
  isDiskData := fun _ => false
  isPodData := fun _ => false
  isChasmBinData := fun _ => false
  isSiNData := fun _ => false
  codecNew := fun _ _ => 0
  codecOpenOk := fun _ _ => false
  codecNewEntry := fun _ _ => 0
  codecOpenEntryOk := fun _ _ => false
  codecNewDir := fun _ => 0
  codecOpenDirOk := fun _ => false
  detectType := fun _ => "unknown"
  archiveEntry := fun _ _ => none
  findLast := fun _ _ => none
  findAll := fun _ _ => []
  fileSize := fun _ => 0
  fileMD5 := fun _ => ""
  fileModifiedTime := fun _ => 0
  now := 0

/-- Witness state for the bookmark claims: archive 5 is open and owns entry 1. -/
def W8 : AMState := { emptyState with
  heap_entries := [(1, ⟨"E1", "txt", some 5, 0, 0⟩)],
  open_archives := [⟨5, true, []⟩] }

/-- Witness state for the resource-flag claim: archive 7 is open. -/
def W10 : AMState := { emptyState with open_archives := [⟨7, true, []⟩] }

/-- Witness state for the reopen claim: archive 3 named x.wad is registered. -/
def W2 : AMState := { emptyState with
  heap_archives := [(3, ⟨"x.wad", "wad", none, 0, []⟩)],
  open_archives := [⟨3, true, []⟩] }

/-- Witness state for the failure-atomicity claim: one unregistered entry. -/
def W3 : AMState := { emptyState with
  heap_entries := [(4, ⟨"n", "txt", none, 0, 9⟩)] }

/-- Witness state for the lookup claims: archive 6 open (non-resource),
archive 2 as base resource. -/
def W5 : AMState := { emptyState with
  open_archives := [⟨6, false, []⟩],
  base_resource_archive := some 2 }

/-- Witness state for the non-resource claim: archive 6 open non-resource,
archive 5 open as a resource owning entry 50. -/
def W4 : AMState := { emptyState with
  heap_entries := [(50, ⟨"X", "txt", some 5, 0, 0⟩)],
  open_archives := [⟨6, false, []⟩, ⟨5, true, []⟩] }

/-- Environment for the non-resource witness: archive 5 answers the entry
query X with entry 50. -/
def envW4 : CodecEnv := { trivEnv with
  archiveEntry := fun a n => if a == 5 && n == "X" then some 50 else none }

/-- Witness state for the base-resource claim: base archive 2 active at
selection index 0. -/
def W6 : AMState := { emptyState with
  base_resource_archive := some 2,
  base_resource := 0 }

/-- Scenario state for the close-cascade claim: grandparent P (id 0) holds
child G (id 1, opened from P's entry 10), G holds child A (id 2, from G's
entry 11), A holds child B (id 3, from A's entry 12); G's child list also
carries a stale link to id 7, which was never registered.  One bookmark
lives in each archive (20 in P, 21 in G, 22 in A, 23 in B), bookmark 10 is
P's entry from which G was opened, and bookmark 99 dangles.  Resource flags
are arbitrary. -/
def C1State (rP rG rA rB : Bool) : AMState := { emptyState with
  heap_archives :=
    [(0, ⟨"P.zip", "zip", none, 0, []⟩), (1, ⟨"G.wad", "wad", some 10, 0, []⟩),
     (2, ⟨"A.wad", "wad", some 11, 0, []⟩), (3, ⟨"B.wad", "wad", some 12, 0, []⟩)],
  heap_entries :=
    [(10, ⟨"g", "wad", some 0, 0, 0⟩), (11, ⟨"a", "wad", some 1, 0, 0⟩),
     (12, ⟨"b", "wad", some 2, 0, 0⟩), (20, ⟨"p0", "txt", some 0, 0, 0⟩),
     (21, ⟨"p1", "txt", some 1, 0, 0⟩), (22, ⟨"p2", "txt", some 2, 0, 0⟩),
     (23, ⟨"p3", "txt", some 3, 0, 0⟩)],
  open_archives := [⟨0, rP, [1]⟩, ⟨1, rG, [2, 7]⟩, ⟨2, rA, [3]⟩, ⟨3, rB, []⟩],
  bookmarks := [20, 21, 22, 23, 10, 99] }

/-- Scenario state for the auto-expansion claim: the parsed archive a.zip
(id 0, zip format, root entries 1 and 2) and the parsed child archive for
entry 1 (id 5, wad format) sit in the heap; nothing is registered yet. -/
def S7 : AMState := { emptyState with
  heap_archives :=
    [(0, ⟨"a.zip", "zip", none, 0, [1, 2]⟩),
     (5, ⟨"maps/e1m1.wad", "wad", some 1, 1, []⟩)],
  heap_entries :=
    [(1, ⟨"e1m1.wad", "unknown", some 0, 0, 11⟩),
     (2, ⟨"readme.txt", "txt", some 0, 0, 12⟩)] }

/-- Expected state after `addArchive` on a.zip with auto-expansion on: two
registry records, the wad child-linked to a.zip, entry 1's type sniffed to
wad, both archives in the ResourceManager, no archive_opened event (the
child was opened silently). -/
def S7res : AMState := { S7 with
  heap_entries :=
    [(1, ⟨"e1m1.wad", "wad", some 0, 0, 11⟩),
     (2, ⟨"readme.txt", "txt", some 0, 0, 12⟩)],
  open_archives := [⟨0, true, [5]⟩, ⟨5, true, []⟩],
  events := [Event.archive_added, Event.archive_added],
  res_log := [ResCall.add 0, ResCall.add 5] }

/-- Environment witnessing the auto-expansion scenario. -/
def env7 : CodecEnv := { trivEnv with
  auto_open_wads_root := true,
  isWadData := fun d => d == 11,
  codecNewEntry := fun f e => if f == "wad" && e == 1 then 5 else 0,
  codecOpenEntryOk := fun f e => f == "wad" && e == 1,
  detectType := fun e => if e == 1 then "wad" else "unknown" }

/-- Witness state for the directory-pruning claim: archive 1 with root dir 0,
node dir 1 (dir entry 5), subdir 2 of the node, sibling dir 3; bookmarked
entries 5 (the node's own entry), 6 (in the subdir), 7 (in the sibling),
8 (directly in the node) and 9 (dangling). -/
def W9 : AMState := { emptyState with
  heap_archives := [(1, ⟨"a.wad", "wad", none, 0, []⟩)],
  heap_dirs := [(0, ⟨none, 4, 1⟩), (1, ⟨some 0, 5, 1⟩), (2, ⟨some 1, 10, 1⟩), (3, ⟨some 0, 11, 1⟩)],
  heap_entries :=
    [(5, ⟨"node", "folder", some 1, 0, 0⟩), (6, ⟨"x", "txt", some 1, 2, 0⟩),
     (7, ⟨"y", "txt", some 1, 3, 0⟩), (8, ⟨"z", "txt", some 1, 1, 0⟩)],
  open_archives := [⟨1, true, []⟩],
  bookmarks := [5, 6, 7, 8, 9] }

/-! Resolved forms of the close-cascade steps, used to state what one level of
`closeRec` does to an arbitrary state.  Each takes exactly the data the code
reads, so the resolved state is compact. -/

/-- The child-unlink predicate of `removeChildLink`, as a function of the
registry in force at unlink time (`it->lock() == archive`). -/
def childLockPred (reg : List OpenArchive) (x : ArchiveId) : ArchiveId → Bool :=
  fun c => lockArchive { emptyState with open_archives := reg } c == some x

/-- The keep-predicate of `deleteBookmarksInArchive`, as a function of the
three state components it reads. -/
def livePred (dead : List EntryId) (entries : List (EntryId × EntryData))
    (reg : List OpenArchive) (aid : ArchiveId) : EntryId → Bool :=
  fun b => !bookmarkPruneArchive
    { emptyState with
        dead_entries := dead, heap_entries := entries, open_archives := reg } aid b

/-- Events appended by one close step up to and including the bookmark prune:
`archive_closing`, then `bookmarks_changed` iff any bookmark was erased. -/
def pruneEvents (evs : List Event) (changed : Bool) (index : Int) : List Event :=
  if changed then evs ++ [Event.archive_closing index] ++ [Event.bookmarks_changed]
  else evs ++ [Event.archive_closing index]

/-- Events appended by one full close step: the prune events then
`archive_closed`. -/
def closeEvents (evs : List Event) (changed : Bool) (index : Int) : List Event :=
  pruneEvents evs changed index ++ [Event.archive_closed index]

/-! ## Helper lemmas -/

lemma archiveIndexAux_neg (a : ArchiveId) :
    ∀ (l : List OpenArchive) (k : Nat), (∀ oa ∈ l, oa.archive ≠ a) →
      archiveIndexAux l a k = -1 := by
  intro l
  induction l with
  | nil => intro k _; rfl
  | cons hd tl ih =>
    intro k h
    unfold archiveIndexAux
    rw [if_neg]
    · exact ih (k + 1) (fun oa hm => h oa (List.mem_cons_of_mem hd hm))
    · simp only [beq_iff_eq]
      exact h hd (List.mem_cons_self hd tl)

lemma archiveIndex_of_not_open (s : AMState) (a : ArchiveId) (h : isOpen s a = false) :
    archiveIndex s a = -1 := by
  apply archiveIndexAux_neg
  intro oa hm he
  have hany : s.open_archives.any (fun oa => oa.archive == a) = true :=
    List.any_eq_true.mpr ⟨oa, hm, by simp [he]⟩
  unfold isOpen at h
  rw [h] at hany
  exact Bool.false_ne_true hany

lemma archiveIndexAux_first (a : ArchiveId) :
    ∀ (l : List OpenArchive) (i k : Nat) (oa : OpenArchive),
      l[i]? = some oa → oa.archive = a →
      (∀ j, j < i → ∀ oa2, l[j]? = some oa2 → oa2.archive ≠ a) →
      archiveIndexAux l a k = ((k + i : Nat) : Int) := by
  intro l
  induction l with
  | nil => intro i k oa h; simp at h
  | cons hd tl ih =>
    intro i k oa h ha hfirst
    cases i with
    | zero =>
      simp only [List.getElem?_cons_zero, Option.some.injEq] at h
      subst h
      unfold archiveIndexAux
      rw [if_pos (by simp [ha])]
      simp
    | succ i2 =>
      have hhd : hd.archive ≠ a :=
        hfirst 0 (Nat.succ_pos i2) hd (by simp)
      unfold archiveIndexAux
      rw [if_neg (by simp [hhd])]
      have := ih i2 (k + 1) oa (by simpa using h) ha
        (fun j hj oa2 hj2 => hfirst (j + 1) (Nat.succ_lt_succ hj) oa2 (by simpa using hj2))
      rw [this]
      congr 1
      omega

lemma set_getElem?_self : ∀ (l : List α) (i : Nat) (x : α), l[i]? = some x → l.set i x = l := by
  intro l
  induction l with
  | nil => intro i x h; simp at h
  | cons hd tl ih =>
    intro i x h
    cases i with
    | zero => simp_all
    | succ i2 =>
      simp only [List.getElem?_cons_succ] at h
      simp [List.set, ih i2 x h]

lemma openOps_succ_openEntry (env : CodecEnv) (fuel : Nat) :
    (openOps env (fuel + 1)).openEntry = openEntryStep env (openOps env fuel).addArchive := rfl

lemma openOps_succ_addArchive (env : CodecEnv) (fuel : Nat) :
    (openOps env (fuel + 1)).addArchive = addArchiveStep env (openOps env fuel).openEntry := rfl

/-! ## C8: addBookmark idempotence -/

lemma addBookmark_any_iff (s : AMState) (e : EntryId) (h : entryLive s e = true) :
    (s.bookmarks.any fun b => entryLive s b && b == e) = true ↔ e ∈ s.bookmarks := by
  constructor
  · intro ha
    rcases List.any_eq_true.mp ha with ⟨b, hb, hp⟩
    simp only [Bool.and_eq_true, beq_iff_eq] at hp
    exact hp.2 ▸ hb
  · intro hm
    exact List.any_eq_true.mpr ⟨e, hm, by simp [h]⟩

lemma addBookmark_of_mem (s : AMState) (e : EntryId) (h : entryLive s e = true)
    (hm : e ∈ s.bookmarks) : addBookmark s e = s := by
  unfold addBookmark
  rw [if_pos ((addBookmark_any_iff s e h).mpr hm)]

lemma addBookmark_of_not_mem (s : AMState) (e : EntryId) (h : entryLive s e = true)
    (hm : e ∉ s.bookmarks) :
    addBookmark s e = announce { s with bookmarks := s.bookmarks ++ [e] } Event.bookmarks_changed := by
  unfold addBookmark
  rw [if_neg]
  intro hc
  exact hm ((addBookmark_any_iff s e h).mp hc)

/-- C8: `addBookmark` is a no-op (no list change, no `bookmarks_changed`
event) on an entry whose exact identity is already bookmarked; otherwise it
appends exactly one bookmark and notifies, so bookmarking the same entry
twice leaves exactly one bookmark. -/
theorem addBookmark_idempotent (s : AMState) (e : EntryId) (h : entryLive s e = true) :
    (e ∈ s.bookmarks → addBookmark s e = s)
    ∧ (e ∉ s.bookmarks →
        (addBookmark s e).bookmarks = s.bookmarks ++ [e]
        ∧ (addBookmark s e).events = s.events ++ [Event.bookmarks_changed])
    ∧ addBookmark (addBookmark s e) e = addBookmark s e
    ∧ (e ∉ s.bookmarks → (addBookmark (addBookmark s e) e).bookmarks.count e = 1) := by
  by_cases hm : e ∈ s.bookmarks
  · have hstop : addBookmark s e = s := addBookmark_of_mem s e h hm
    refine ⟨fun _ => hstop, fun hn => absurd hm hn, by rw [hstop, hstop], fun hn => absurd hm hn⟩
  · have hgo := addBookmark_of_not_mem s e h hm
    have hlive2 : entryLive (addBookmark s e) e = true := by
      rw [hgo]; exact h
    have hmem2 : e ∈ (addBookmark s e).bookmarks := by
      rw [hgo]
      exact List.mem_append_right _ (List.mem_singleton.mpr rfl)
    have hstop2 : addBookmark (addBookmark s e) e = addBookmark s e :=
      addBookmark_of_mem (addBookmark s e) e hlive2 hmem2
    refine ⟨fun hc => absurd hc hm, fun _ => ⟨by rw [hgo]; rfl, by rw [hgo]; rfl⟩, hstop2, fun _ => ?_⟩
    rw [hstop2, hgo]
    show ((s.bookmarks ++ [e]).count e) = 1
    rw [List.count_append, List.count_eq_zero_of_not_mem hm]
    simp

/-! ## C10: setArchiveResource keeps the Resource Index in sync -/

/-- C10: `setArchiveResource` does nothing for an unregistered archive; on a
registered archive it calls the ResourceManager's addArchive only on a
false-to-true transition and removeArchive only on a true-to-false
transition, and a call with the flag's current value changes nothing at all
(no registry change, no ResourceManager call, no event). -/
theorem setArchiveResource_sync (s : AMState) (a : ArchiveId) (r : Bool) :
    (isOpen s a = false → setArchiveResource s a r = s)
    ∧ (∀ i oa, s.open_archives[i]? = some oa → oa.archive = a →
        (∀ j, j < i → ∀ oa2, s.open_archives[j]? = some oa2 → oa2.archive ≠ a) →
        (oa.resource = r → setArchiveResource s a r = s)
        ∧ (oa.resource = false → r = true →
            setArchiveResource s a r =
              { s with open_archives := s.open_archives.set i ({ oa with resource := true }),
                       res_log := s.res_log ++ [ResCall.add a] })
        ∧ (oa.resource = true → r = false →
            setArchiveResource s a r =
              { s with open_archives := s.open_archives.set i ({ oa with resource := false }),
                       res_log := s.res_log ++ [ResCall.remove a] })) := by
  constructor
  · intro h
    unfold setArchiveResource
    rw [archiveIndex_of_not_open s a h]
    rfl
  · intro i oa hget ha hfirst
    have hidx : archiveIndex s a = ((0 + i : Nat) : Int) :=
      archiveIndexAux_first a s.open_archives i 0 oa hget ha hfirst
    rw [Nat.zero_add] at hidx
    have hrec : recordAt s i = oa := by
      unfold recordAt
      rw [hget]
      rfl
    have ht : ((i : Nat) : Int).toNat = i := by omega
    refine ⟨?_, ?_, ?_⟩
    · intro hsame
      unfold setArchiveResource
      rw [hidx]
      dsimp only
      rw [if_neg (by omega), ht, hrec, hsame]
      have heta : ({ oa with resource := r } : OpenArchive) = oa := by
        rw [← hsame]
      rw [heta, set_getElem?_self s.open_archives i oa hget]
      cases r <;> simp
    · intro hwas hr
      subst hr
      unfold setArchiveResource
      rw [hidx]
      dsimp only
      rw [if_neg (by omega), ht, hrec, hwas]
      rfl
    · intro hwas hr
      subst hr
      unfold setArchiveResource
      rw [hidx]
      dsimp only
      rw [if_neg (by omega), ht, hrec, hwas]
      rfl

/-! ## C2: reopening a registered path -/

/-- C2: `openArchive` on a path whose filename is already registered (with
`manage` set) returns the identical archive instance, leaves the registry,
the persisted table, the ResourceManager and the bookmark list untouched,
and emits `archive_opened` with the existing registry position iff not
silent; and the persisted upsert is replace-by-path, so it keeps the
table's paths free of duplicates. -/
theorem openArchive_reopen (env : CodecEnv) (fuel : Nat) (s : AMState) (fn : String)
    (a : ArchiveId) (silent : Bool) (h : getArchiveByName s fn = some a) :
    openArchivePath env fuel s fn true silent =
      ((if silent then s else announce s (Event.archive_opened (archiveIndex s a))), some a)
    ∧ (∀ (tbl : List (String × DBRow)) (p : String) (row : DBRow),
        (tbl.map Prod.fst).Nodup → ((dbUpsert tbl p row).map Prod.fst).Nodup) := by
  constructor
  · unfold openArchivePath openDirArchive
    cases hdir : env.dirExists fn <;> simp only [Bool.false_eq_true, if_pos, if_neg, reduceIte] <;>
      rw [h] <;> cases silent <;> rfl
  · intro tbl p row hnd
    unfold dbUpsert
    by_cases hany : tbl.any (fun pr => pr.1 == p) = true
    · rw [if_pos hany]
      have hkeys : (tbl.map (fun pr => if pr.1 == p then (p, row) else pr)).map Prod.fst
          = tbl.map Prod.fst := by
        rw [List.map_map]
        apply List.map_congr_left
        intro x _
        by_cases hx : x.1 = p
        · simp [hx]
        · simp [hx]
      rw [hkeys]
      exact hnd
    · rw [if_neg hany]
      have hout : p ∉ tbl.map Prod.fst := by
        intro hmem
        rcases List.mem_map.mp hmem with ⟨pr, hpr, hfst⟩
        exact hany (List.any_eq_true.mpr ⟨pr, hpr, by simp [hfst]⟩)
      simp only [List.map_append, List.map_cons, List.map_nil]
      rw [List.nodup_append]
      exact ⟨hnd, List.nodup_singleton p, by simp [List.disjoint_singleton, hout]⟩

/-! ## C3: open failures leave no partial state -/

/-- C3: an open attempt (by path or by entry) that reaches the recognizer
chain and finds no match fails with the "Unsupported or invalid Archive
format" condition and changes nothing else; one whose matched codec fails to
parse fails and changes nothing at all.  In both cases the registry, the
ResourceManager log, the persisted store, the bookmarks and the event list
are exactly as before the call. -/
theorem openArchive_failure_atomic (env : CodecEnv) (fuel : Nat) (s : AMState)
    (fn : String) (eid : EntryId) (ed : EntryData) (manage silent : Bool)
    (hdir : env.dirExists fn = false)
    (hnew : getArchiveByName s fn = none)
    (hent : entryDataOf s eid = some ed)
    (hnotopen : ∀ oa ∈ s.open_archives, parentEntryOf s oa.archive ≠ some eid) :
    (detectFormatPath env fn = none →
      openArchivePath env fuel s fn manage silent =
        ({ s with global_error := "Unsupported or invalid Archive format" }, none))
    ∧ (∀ fmt, detectFormatPath env fn = some fmt → env.codecOpenOk fmt fn = false →
        openArchivePath env fuel s fn manage silent = (s, none))
    ∧ (detectFormatEntry env ed.name ed.dat = none →
        openArchiveEntry env s (some eid) manage silent =
          ({ s with global_error := "Unsupported or invalid Archive format" }, none))
    ∧ (∀ fmt, detectFormatEntry env ed.name ed.dat = some fmt →
        env.codecOpenEntryOk fmt eid = false →
        openArchiveEntry env s (some eid) manage silent = (s, none)) := by
  have hfind : s.open_archives.find? (fun oa => parentEntryOf s oa.archive == some eid) = none := by
    rw [List.find?_eq_none]
    intro oa hm
    simp only [beq_iff_eq]
    exact hnotopen oa hm
  refine ⟨?_, ?_, ?_, ?_⟩
  · intro hdet
    unfold openArchivePath
    rw [hdir, if_neg Bool.false_ne_true, hnew, hdet]
  · intro fmt hdet hopen
    unfold openArchivePath
    rw [hdir, if_neg Bool.false_ne_true, hnew, hdet]
    dsimp only
    rw [hopen]
    rfl
  · intro hdet
    unfold openArchiveEntry
    rw [openOps_succ_openEntry]
    unfold openEntryStep
    dsimp only
    rw [hfind]
    dsimp only
    rw [hent]
    dsimp only
    rw [hdet]
  · intro fmt hdet hopen
    unfold openArchiveEntry
    rw [openOps_succ_openEntry]
    unfold openEntryStep
    dsimp only
    rw [hfind]
    dsimp only
    rw [hent]
    dsimp only
    rw [hdet]
    dsimp only
    rw [hopen]
    rfl

/-! ## C4 and C5: resource lookup chain -/

lemma resScan_avoid (owner : EntryId → Option ArchiveId) (query : ArchiveId → Option EntryId)
    (ig : Option ArchiveId) (A : ArchiveId)
    (hq : ∀ a e, query a = some e → owner e = some a) :
    ∀ (l : List OpenArchive), (∀ oa ∈ l, oa.archive = A → oa.resource = false) →
      ∀ e, resScan query ig l = some e → owner e ≠ some A := by
  intro l
  induction l with
  | nil => intro _ e he; simp [resScan] at he
  | cons oa rest ih =>
    intro hA e he
    have hrest : ∀ oa2 ∈ rest, oa2.archive = A → oa2.resource = false :=
      fun oa2 hm => hA oa2 (List.mem_cons_of_mem oa hm)
    unfold resScan at he
    by_cases h1 : oa.resource
    · rw [h1] at he
      simp only [Bool.not_true, Bool.false_eq_true, if_false] at he
      by_cases h2 : (some oa.archive == ig) = true
      · rw [if_pos h2] at he
        exact ih hrest e he
      · rw [if_neg h2] at he
        cases hq2 : query oa.archive with
        | some e2 =>
          rw [hq2] at he
          have hee : e2 = e := Option.some.inj he
          rw [← hee]
          have hown := hq oa.archive e2 hq2
          rw [hown]
          intro hc
          have haA : oa.archive = A := by
            exact Option.some.inj hc
          have := hA oa (List.mem_cons_self oa rest) haA
          rw [this] at h1
          exact Bool.false_ne_true h1
        | none =>
          rw [hq2] at he
          exact ih hrest e he
    · have h1f : oa.resource = false := Bool.eq_false_iff.mpr h1
      rw [h1f] at he
      simp only [Bool.not_false, if_true] at he
      exact ih hrest e he

lemma findAllFold_eq (f : ArchiveId → List EntryId) (ig : Option ArchiveId) :
    ∀ (l : List OpenArchive) (acc : List EntryId),
      List.foldl
        (fun acc oa =>
          if !oa.resource then acc
          else if some oa.archive == ig then acc
          else acc ++ f oa.archive) acc l
      = acc ++ (l.filter (fun oa => oa.resource && !(some oa.archive == ig))).flatMap
          (fun oa => f oa.archive) := by
  intro l
  induction l with
  | nil => intro acc; simp
  | cons oa rest ih =>
    intro acc
    rw [List.foldl_cons]
    by_cases h1 : oa.resource
    · by_cases h2 : (some oa.archive == ig) = true
      · rw [List.filter_cons_of_neg (by simp [h1, h2])]
        simp only [h1, h2, Bool.not_true, Bool.false_eq_true, if_false, if_true, if_pos]
        exact ih acc
      · have h2f : (some oa.archive == ig) = false := Bool.eq_false_iff.mpr h2
        rw [List.filter_cons_of_pos (by simp [h1, h2f])]
        simp only [h1, h2f, Bool.not_true, Bool.false_eq_true, if_false]
        rw [ih (acc ++ f oa.archive), List.flatMap_cons, List.append_assoc]
    · have h1f : oa.resource = false := Bool.eq_false_iff.mpr h1
      rw [List.filter_cons_of_neg (by simp [h1f])]
      simp only [h1f, Bool.not_false, if_true]
      exact ih acc

/-- C4: no entry of an archive whose registry record is flagged non-resource
is ever returned by `getResourceEntry`, `findResourceEntry` or
`findAllResourceEntries`, for any query, search options and ignore argument.
The per-archive queries are assumed to return only entries owned by the
queried archive, and the base-resource slot is disjoint from the registry. -/
theorem nonResource_never_searched (env : CodecEnv) (s : AMState) (A : ArchiveId)
    (hent : ∀ a n e, env.archiveEntry a n = some e → entryOwner s e = some a)
    (hlast : ∀ a o e, env.findLast a o = some e → entryOwner s e = some a)
    (hall : ∀ a o e, e ∈ env.findAll a o → entryOwner s e = some a)
    (hA : ∀ oa ∈ s.open_archives, oa.archive = A → oa.resource = false)
    (hbase : s.base_resource_archive ≠ some A) :
    (∀ name ig e, getResourceEntry env s name ig = some e → entryOwner s e ≠ some A)
    ∧ (∀ o ig e, findResourceEntry env s o ig = some e → entryOwner s e ≠ some A)
    ∧ (∀ o ig e, e ∈ findAllResourceEntries env s o ig → entryOwner s e ≠ some A) := by
  have hbA : ∀ b, s.base_resource_archive = some b → b ≠ A := by
    intro b hb hc
    exact hbase (hc ▸ hb)
  refine ⟨?_, ?_, ?_⟩
  · intro name ig e he
    unfold getResourceEntry at he
    cases hscan : resScan (fun a => env.archiveEntry a name) ig s.open_archives with
    | some e2 =>
      rw [hscan] at he
      have hee : e2 = e := Option.some.inj he
      rw [← hee]
      exact resScan_avoid (entryOwner s) _ ig A (fun a e3 => hent a name e3)
        s.open_archives hA e2 hscan
    | none =>
      rw [hscan] at he
      cases hb : s.base_resource_archive with
      | none => rw [hb] at he; exact absurd he (by simp)
      | some b =>
        rw [hb] at he
        rw [hent b name e he]
        intro hc
        exact hbA b hb (Option.some.inj hc)
  · intro o ig e he
    unfold findResourceEntry at he
    cases hscan : resScan (fun a => env.findLast a o) ig s.open_archives with
    | some e2 =>
      rw [hscan] at he
      have hee : e2 = e := Option.some.inj he
      rw [← hee]
      exact resScan_avoid (entryOwner s) _ ig A (fun a e3 => hlast a o e3)
        s.open_archives hA e2 hscan
    | none =>
      rw [hscan] at he
      cases hb : s.base_resource_archive with
      | none => rw [hb] at he; exact absurd he (by simp)
      | some b =>
        rw [hb] at he
        rw [hlast b o e he]
        intro hc
        exact hbA b hb (Option.some.inj hc)
  · intro o ig e he
    unfold findAllResourceEntries at he
    rw [findAllFold_eq (fun a => env.findAll a o) ig] at he
    rcases List.mem_append.mp he with hb | hopen
    · cases hbr : s.base_resource_archive with
      | none => rw [hbr] at hb; simp at hb
      | some b =>
        rw [hbr] at hb
        rw [hall b o e hb]
        intro hc
        exact hbA b hbr (Option.some.inj hc)
    · rcases List.mem_flatMap.mp hopen with ⟨oa, hmem, hoe⟩
      have hmem2 : oa ∈ s.open_archives := (List.mem_filter.mp hmem).1
      have hres : (oa.resource && !(some oa.archive == ig)) = true := (List.mem_filter.mp hmem).2
      rw [hall oa.archive o e hoe]
      intro hc
      have haA : oa.archive = A := Option.some.inj hc
      have := hA oa hmem2 haA
      rw [this] at hres
      simp at hres

lemma resScan_eq_firstMatch (query : ArchiveId → Option EntryId) (ig : Option ArchiveId)
    (s : AMState) : resScan query ig s.open_archives = firstOpenResourceMatch s query ig := by
  unfold firstOpenResourceMatch
  generalize s.open_archives = l
  induction l with
  | nil => rfl
  | cons oa rest ih =>
    rw [List.findSome?_cons]
    unfold resScan
    by_cases h1 : oa.resource
    · by_cases h2 : (some oa.archive == ig) = true
      · simp only [h1, h2, Bool.not_true, Bool.and_false, Bool.false_eq_true, if_false,
          Bool.not_false, if_true]
        exact ih
      · have h2f : (some oa.archive == ig) = false := Bool.eq_false_iff.mpr h2
        simp only [h1, h2f, Bool.not_true, Bool.not_false, Bool.and_true, Bool.false_eq_true,
          if_false, if_true]
        cases hq : query oa.archive <;> simp [hq, ih]
    · have h1f : oa.resource = false := Bool.eq_false_iff.mpr h1
      simp only [h1f, Bool.not_false, Bool.false_and, Bool.false_eq_true, if_false, if_true]
      exact ih

/-- C5: with an active base resource archive, `findAllResourceEntries` yields
every base-archive match first and then the matches of the open resource
archives in registry order (non-resource and ignored archives excluded),
while the single-result queries `getResourceEntry` and `findResourceEntry`
scan the open resource archives in registry order first and consult the base
archive only as a fallback. -/
theorem resource_search_order (env : CodecEnv) (s : AMState) (b : ArchiveId)
    (hb : s.base_resource_archive = some b) :
    (∀ opt ig, findAllResourceEntries env s opt ig =
        env.findAll b opt ++
          (s.open_archives.filter (fun oa => oa.resource && !(some oa.archive == ig))).flatMap
            (fun oa => env.findAll oa.archive opt))
    ∧ (∀ name ig, getResourceEntry env s name ig =
        (firstOpenResourceMatch s (fun a => env.archiveEntry a name) ig).orElse
          (fun _ => env.archiveEntry b name))
    ∧ (∀ opt ig, findResourceEntry env s opt ig =
        (firstOpenResourceMatch s (fun a => env.findLast a opt) ig).orElse
          (fun _ => env.findLast b opt)) := by
  refine ⟨?_, ?_, ?_⟩
  · intro opt ig
    unfold findAllResourceEntries
    rw [hb]
    exact findAllFold_eq (fun a => env.findAll a opt) ig s.open_archives (env.findAll b opt)
  · intro name ig
    unfold getResourceEntry
    rw [hb, resScan_eq_firstMatch]
    cases hs : firstOpenResourceMatch s (fun a => env.archiveEntry a name) ig <;>
      simp [Option.orElse]
  · intro opt ig
    unfold findResourceEntry
    rw [hb, resScan_eq_firstMatch]
    cases hs : firstOpenResourceMatch s (fun a => env.findLast a opt) ig <;>
      simp [Option.orElse]

lemma clearedBase_base_none (s : AMState) : (clearedBase s).base_resource_archive = none := by
  unfold clearedBase
  cases hb : s.base_resource_archive
  · exact hb
  · rfl

lemma clearedBase_res_log (s : AMState) :
    (clearedBase s).res_log =
      (match s.base_resource_archive with
       | some b => s.res_log ++ [ResCall.remove b]
       | none => s.res_log) := by
  unfold clearedBase
  cases hb : s.base_resource_archive <;> rfl

lemma clearedBase_open_archives (s : AMState) : (clearedBase s).open_archives = s.open_archives := by
  unfold clearedBase
  cases hb : s.base_resource_archive <;> rfl

lemma clearedBase_events (s : AMState) : (clearedBase s).events = s.events := by
  unfold clearedBase
  cases hb : s.base_resource_archive <;> rfl

lemma clearedBase_db_archive_file (s : AMState) :
    (clearedBase s).db_archive_file = s.db_archive_file := by
  unfold clearedBase
  cases hb : s.base_resource_archive <;> rfl

lemma clearedBase_db_base_resource_paths (s : AMState) :
    (clearedBase s).db_base_resource_paths = s.db_base_resource_paths := by
  unfold clearedBase
  cases hb : s.base_resource_archive <;> rfl

lemma clearedBase_global_error (s : AMState) : (clearedBase s).global_error = s.global_error := by
  unfold clearedBase
  cases hb : s.base_resource_archive <;> rfl

lemma getResourceEntry_no_base (env2 : CodecEnv) (s2 : AMState) (name : String)
    (ig : Option ArchiveId) (h : s2.base_resource_archive = none) :
    getResourceEntry env2 s2 name ig
      = resScan (fun a => env2.archiveEntry a name) ig s2.open_archives := by
  unfold getResourceEntry
  rw [h]
  cases hs : resScan (fun a => env2.archiveEntry a name) ig s2.open_archives <;> rfl

/-! ## C6: clearing the base resource selection -/

/-- C6: requesting base resource index -1, or an index whose persisted path
is empty or absent, clears the selection: the previously active base archive
(if any) is removed from the ResourceManager, no base archive remains
active, the selection becomes -1, `base_resource_changed` fires, no error
message is produced and the registry and persisted tables are untouched;
subsequent `getResourceEntry` calls consult the open resource archives only. -/
theorem openBaseResource_clear (env : CodecEnv) (s : AMState) (index : Int)
    (hinv : ∀ b, s.base_resource_archive = some b → 0 ≤ s.base_resource)
    (hcase : index = -1 ∨ (0 ≤ index ∧ getBaseResourcePath s index.toNat = ""
      ∧ s.base_resource ≠ index)) :
    (openBaseResource env s index).2 = false
    ∧ (openBaseResource env s index).1.base_resource_archive = none
    ∧ (openBaseResource env s index).1.base_resource = -1
    ∧ (openBaseResource env s index).1.events = s.events ++ [Event.base_resource_changed]
    ∧ (openBaseResource env s index).1.res_log =
        (match s.base_resource_archive with
         | some b => s.res_log ++ [ResCall.remove b]
         | none => s.res_log)
    ∧ (openBaseResource env s index).1.open_archives = s.open_archives
    ∧ (openBaseResource env s index).1.db_archive_file = s.db_archive_file
    ∧ (openBaseResource env s index).1.db_base_resource_paths = s.db_base_resource_paths
    ∧ (openBaseResource env s index).1.global_error = s.global_error
    ∧ (∀ (env2 : CodecEnv) name ig,
        getResourceEntry env2 (openBaseResource env s index).1 name ig =
          resScan (fun a => env2.archiveEntry a name) ig s.open_archives) := by
  have hguard : (s.base_resource_archive.isSome && s.base_resource == index) = false := by
    cases hb : s.base_resource_archive with
    | none => rfl
    | some b =>
      have h0 := hinv b hb
      rcases hcase with h | ⟨hge, _, hne⟩
      · subst h
        simp only [Option.isSome_some, Bool.true_and, beq_iff_eq]
        exact decide_eq_false (by omega)
      · simp only [Option.isSome_some, Bool.true_and, beq_iff_eq]
        exact decide_eq_false (fun hc => hne hc)
  have hfn : (if 0 ≤ index then getBaseResourcePath s index.toNat else "") = "" := by
    rcases hcase with h | ⟨hge, hpath, _⟩
    · rw [if_neg (by omega)]
    · rw [if_pos hge, hpath]
  have hfn2 : (if 0 ≤ index then (s.db_base_resource_paths[index.toNat]?).getD "" else "") = "" := by
    rw [show ((s.db_base_resource_paths[index.toNat]?).getD "")
        = getBaseResourcePath s index.toNat from rfl]
    exact hfn
  have hmain : openBaseResource env s index =
      (announce { clearedBase s with base_resource := -1 } Event.base_resource_changed,
       false) := by
    unfold openBaseResource clearedBase
    rw [hguard, if_neg Bool.false_ne_true]
    cases hb : s.base_resource_archive with
    | none =>
      dsimp only [getBaseResourcePath]
      rw [hfn2]
      rw [if_pos (by decide)]
    | some b =>
      dsimp only [getBaseResourcePath]
      rw [hfn2]
      rw [if_pos (by decide)]
  rw [hmain]
  refine ⟨rfl, clearedBase_base_none s, rfl, ?_, clearedBase_res_log s,
    clearedBase_open_archives s, clearedBase_db_archive_file s,
    clearedBase_db_base_resource_paths s, clearedBase_global_error s, ?_⟩
  · show (clearedBase s).events ++ [Event.base_resource_changed]
      = s.events ++ [Event.base_resource_changed]
    rw [clearedBase_events]
  · intro env2 name ig
    rw [getResourceEntry_no_base env2
        (announce { clearedBase s with base_resource := -1 } Event.base_resource_changed)
        name ig (clearedBase_base_none s)]
    rw [show (announce { clearedBase s with base_resource := -1 }
        Event.base_resource_changed).open_archives = s.open_archives
      from clearedBase_open_archives s]

/-- Witness for C8 at a concrete live entry. -/
theorem addBookmark_idempotent_witness :
    entryLive W8 1 = true ∧ addBookmark (addBookmark W8 1) 1 = addBookmark W8 1 :=
  ⟨by decide, (addBookmark_idempotent W8 1 (by decide)).2.2.1⟩

/-- Witness for C10: toggling to the current value changes nothing. -/
theorem setArchiveResource_sync_witness :
    W10.open_archives[0]? = some ⟨7, true, []⟩ ∧ setArchiveResource W10 7 true = W10 :=
  ⟨rfl,
   ((setArchiveResource_sync W10 7 true).2 0 ⟨7, true, []⟩ rfl rfl
     (fun j hj => absurd hj (Nat.not_lt_zero j))).1 rfl⟩

/-! ## C1: closing an archive cascades to its nested children -/

/-! ## General close-cascade infrastructure -/

lemma eraseIdx_set_self : ∀ (l : List α) (i : Nat) (x : α),
    (l.set i x).eraseIdx i = l.eraseIdx i := by
  intro l
  induction l with
  | nil => intro i x; rfl
  | cons hd tl ih =>
    intro i x
    cases i with
    | zero => simp [List.set, List.eraseIdx_cons_zero]
    | succ i2 => simp [List.set, List.eraseIdx_cons_succ, ih i2 x]

lemma eraseIdx_set_lt : ∀ (l : List α) (i j : Nat) (x : α), i < j →
    (l.set i x).eraseIdx j = (l.eraseIdx j).set i x := by
  intro l
  induction l with
  | nil => intro i j x _; rfl
  | cons hd tl ih =>
    intro i j x hij
    cases i with
    | zero =>
      cases j with
      | zero => omega
      | succ j2 => simp [List.set, List.eraseIdx_cons_succ]
    | succ i2 =>
      cases j with
      | zero => omega
      | succ j2 =>
        simp [List.set, List.eraseIdx_cons_succ, ih i2 j2 x (by omega)]

lemma map_eraseIdx_comm (f : α → β) : ∀ (l : List α) (i : Nat),
    (l.eraseIdx i).map f = (l.map f).eraseIdx i := by
  intro l
  induction l with
  | nil => intro i; rfl
  | cons hd tl ih =>
    intro i
    cases i with
    | zero => simp [List.eraseIdx_cons_zero]
    | succ i2 => simp [List.eraseIdx_cons_succ, ih i2]

lemma nodup_getElem?_inj (l : List α) (hnd : l.Nodup) (i j : Nat) (x : α)
    (hi : l[i]? = some x) (hj : l[j]? = some x) : i = j := by
  obtain ⟨hbi, hgi⟩ := List.getElem?_eq_some.mp hi
  obtain ⟨hbj, hgj⟩ := List.getElem?_eq_some.mp hj
  exact (List.Nodup.getElem_inj_iff hnd).mp (hgi.trans hgj.symm)

lemma foldl_fixed (f : α → β → α) (st : α) : ∀ (u : List β),
    (∀ c ∈ u, f st c = st) → u.foldl f st = st := by
  intro u
  induction u with
  | nil => intro _; rfl
  | cons hd tl ih =>
    intro h
    rw [List.foldl_cons, h hd (List.mem_cons_self hd tl)]
    exact ih (fun c hc => h c (List.mem_cons_of_mem hd hc))

lemma eraseP_congr_pred (p q : α → Bool) (h : ∀ x, p x = q x) :
    ∀ l : List α, l.eraseP p = l.eraseP q := by
  intro l
  induction l with
  | nil => rfl
  | cons hd tl ih => rw [List.eraseP_cons, List.eraseP_cons, h hd, ih]

lemma any_archive_congr (c : ArchiveId) : ∀ (l1 l2 : List OpenArchive),
    l1.map (fun oa => oa.archive) = l2.map (fun oa => oa.archive) →
    l1.any (fun oa => oa.archive == c) = l2.any (fun oa => oa.archive == c) := by
  intro l1
  induction l1 with
  | nil =>
    intro l2 h
    cases l2 with
    | nil => rfl
    | cons hd2 tl2 => simp at h
  | cons hd tl ih =>
    intro l2 h
    cases l2 with
    | nil => simp at h
    | cons hd2 tl2 =>
      simp only [List.map_cons, List.cons.injEq] at h
      simp only [List.any_cons, h.1, ih tl2 h.2]

lemma isOpen_congr (s1 s2 : AMState)
    (h : s1.open_archives.map (fun oa => oa.archive)
       = s2.open_archives.map (fun oa => oa.archive)) (c : ArchiveId) :
    isOpen s1 c = isOpen s2 c :=
  any_archive_congr c s1.open_archives s2.open_archives h

lemma entryLive_congr (s1 s2 : AMState)
    (hd : s1.dead_entries = s2.dead_entries)
    (he : s1.heap_entries = s2.heap_entries)
    (ho : s1.open_archives.map (fun oa => oa.archive)
        = s2.open_archives.map (fun oa => oa.archive)) (e : EntryId) :
    entryLive s1 e = entryLive s2 e := by
  have hed : entryDataOf s1 e = entryDataOf s2 e := by
    unfold entryDataOf; rw [he]
  unfold entryLive
  rw [hd, hed]
  cases hc : entryDataOf s2 e with
  | none => rfl
  | some ed =>
    dsimp only
    cases hp : ed.parent with
    | none => rfl
    | some a =>
      dsimp only
      rw [isOpen_congr s1 s2 ho a]

lemma bookmarkPruneArchive_congr (s1 s2 : AMState)
    (hd : s1.dead_entries = s2.dead_entries)
    (he : s1.heap_entries = s2.heap_entries)
    (ho : s1.open_archives.map (fun oa => oa.archive)
        = s2.open_archives.map (fun oa => oa.archive))
    (aid : ArchiveId) (b : EntryId) :
    bookmarkPruneArchive s1 aid b = bookmarkPruneArchive s2 aid b := by
  have hl : lockEntry s1 b = lockEntry s2 b := by
    unfold lockEntry
    rw [entryLive_congr s1 s2 hd he ho b, show entryDataOf s1 b = entryDataOf s2 b from by
      unfold entryDataOf; rw [he]]
  unfold bookmarkPruneArchive
  rw [hl]

lemma archiveIndex_of_nodup (s : AMState) (j : Nat) (oa : OpenArchive)
    (hnd : (s.open_archives.map (fun x => x.archive)).Nodup)
    (hj : s.open_archives[j]? = some oa) :
    archiveIndex s oa.archive = (j : Int) := by
  have h := archiveIndexAux_first oa.archive s.open_archives j 0 oa hj rfl ?_
  · rw [archiveIndex, h]; norm_num
  · intro j2 hj2 oa2 hj2e he
    have h1 : (s.open_archives.map (fun x => x.archive))[j2]? = some oa.archive := by
      rw [List.getElem?_map, hj2e]
      show some oa2.archive = some oa.archive
      rw [he]
    have h2 : (s.open_archives.map (fun x => x.archive))[j]? = some oa.archive := by
      rw [List.getElem?_map, hj]
      rfl
    exact absurd (nodup_getElem?_inj _ hnd j2 j oa.archive h1 h2) (by omega)

lemma isOpen_of_getElem (s : AMState) (j : Nat) (oa : OpenArchive)
    (hj : s.open_archives[j]? = some oa) : isOpen s oa.archive = true := by
  obtain ⟨hb, hg⟩ := List.getElem?_eq_some.mp hj
  exact List.any_eq_true.mpr ⟨oa, by rw [← hg]; exact List.getElem_mem hb, by simp⟩

lemma any_archive_map (c : ArchiveId) : ∀ (l : List OpenArchive),
    l.any (fun oa => oa.archive == c)
      = (l.map (fun oa => oa.archive)).any (fun x => x == c) := by
  intro l
  induction l with
  | nil => rfl
  | cons hd tl ih => simp only [List.any_cons, List.map_cons, ih]

lemma any_false_of_sublist (p : α → Bool) (l1 l2 : List α)
    (hs : l1.Sublist l2) (h2 : l2.any p = false) : l1.any p = false := by
  cases h1 : l1.any p with
  | false => rfl
  | true =>
    obtain ⟨x, hm, hp⟩ := List.any_eq_true.mp h1
    have := List.any_eq_true.mpr ⟨x, hs.subset hm, hp⟩
    rw [h2] at this
    exact absurd this Bool.false_ne_true

lemma lockArchive_open (st : AMState) (c : ArchiveId) (h : isOpen st c = true) :
    lockArchive st c = some c := by
  unfold lockArchive
  rw [h]
  rw [if_pos rfl]

lemma archiveIndex_eq_of (st : AMState) (j : Nat) (c : ArchiveId) (oa : OpenArchive)
    (hnd : (st.open_archives.map (fun x => x.archive)).Nodup)
    (hj : st.open_archives[j]? = some oa) (harch : oa.archive = c) :
    archiveIndex st c = (j : Int) :=
  harch ▸ archiveIndex_of_nodup st j oa hnd hj

lemma archiveIndexOpt_some (st : AMState) (a : ArchiveId) :
    archiveIndexOpt st (some a) = archiveIndex st a := rfl

lemma closeFold_stale (fuel : Nat) (st : AMState) (cs : List ArchiveId)
    (h : ∀ c ∈ cs, isOpen st c = false) :
    cs.foldl (fun st2 c =>
      if 0 ≤ archiveIndexOpt st2 (lockArchive st2 c) then
        (closeRec fuel st2 (archiveIndexOpt st2 (lockArchive st2 c))).1
      else st2) st = st := by
  apply foldl_fixed
  intro c hc
  dsimp only
  unfold lockArchive
  rw [h c hc]
  rfl

/-- One `closeRec` step on a record all of whose child links are stale:
announce, prune, ResourceManager removal, child-list clear (the fold over the
snapshot does nothing), unlink from the parent record at `pa2`, erase, announce. -/
lemma closeRec_leaf (fuel : Nat) (s : AMState) (i pa2 : Nat) (bA aP : ArchiveId)
    (rb raP : Bool) (cb cpar : List ArchiveId) (eb : EntryId)
    (hnd : (s.open_archives.map (fun oa => oa.archive)).Nodup)
    (hB : s.open_archives[i]? = some ⟨bA, rb, cb⟩)
    (hstale : ∀ c ∈ cb, isOpen s c = false)
    (hpe : parentEntryOf s bA = some eb)
    (hpar : (entryDataOf s eb).bind (fun ed => ed.parent) = some aP)
    (hPa : s.open_archives[pa2]? = some ⟨aP, raP, cpar⟩)
    (hne : pa2 ≠ i) :
    closeRec (fuel + 1) s (i : Int) =
      ({ s with
          open_archives := ((s.open_archives.set i ⟨bA, rb, []⟩).set pa2
            ⟨aP, raP, cpar.eraseP
              (childLockPred (s.open_archives.set i ⟨bA, rb, []⟩) bA)⟩).eraseIdx i,
          bookmarks := s.bookmarks.filter
            (livePred s.dead_entries s.heap_entries s.open_archives bA),
          res_log := s.res_log ++ [ResCall.remove bA],
          events := closeEvents s.events
            ((s.bookmarks.filter
                (livePred s.dead_entries s.heap_entries s.open_archives bA)).length
              != s.bookmarks.length) (i : Int) }, true) := by
  have hlen : i < s.open_archives.length := (List.getElem?_eq_some.mp hB).1
  simp only [parentEntryOf, archiveDataOf] at hpe
  simp only [entryDataOf] at hpar
  unfold closeRec
  rw [if_neg (by
    simp only [Bool.or_eq_true, decide_eq_true_eq, not_or]
    constructor <;> omega)]
  simp only [Int.toNat_natCast, announce, recordAt, deleteBookmarksInArchive,
    setChildren, removeChildLink,
    parentEntryOf, archiveDataOf, entryDataOf, hB, Option.getD_some]
  rw [closeFold_stale fuel]
  · dsimp only
    rw [List.getElem?_set_self hlen]
    simp only [Option.getD_some]
    rw [hpe]
    dsimp only
    rw [hpar]
    dsimp only
    rw [archiveIndex_eq_of _ pa2 aP ⟨aP, raP, cpar⟩]
    · rw [if_pos (show (0 : Int) ≤ (pa2 : Int) by omega), Int.toNat_natCast]
      rw [List.getElem?_set_ne (Ne.symm hne), hPa]
      rfl
    · dsimp only
      rw [List.map_set]
      rw [set_getElem?_self _ i bA (by rw [List.getElem?_map, hB]; rfl)]
      exact hnd
    · dsimp only
      rw [List.getElem?_set_ne (Ne.symm hne)]
      exact hPa
    · rfl
  · intro c hc
    rw [isOpen_congr _ s _ c]
    · exact hstale c hc
    · show (s.open_archives.set i ⟨bA, rb, []⟩).map (fun oa => oa.archive)
        = s.open_archives.map (fun oa => oa.archive)
      rw [List.map_set]
      exact set_getElem?_self _ i bA (by rw [List.getElem?_map, hB]; rfl)

lemma livePred_reg (dead : List EntryId) (entries : List (EntryId × EntryData))
    (r1 r2 : List OpenArchive) (aid : ArchiveId)
    (h : r1.map (fun oa => oa.archive) = r2.map (fun oa => oa.archive)) :
    livePred dead entries r1 aid = livePred dead entries r2 aid := by
  funext b
  unfold livePred
  rw [bookmarkPruneArchive_congr
    { emptyState with
        dead_entries := dead, heap_entries := entries, open_archives := r1 }
    { emptyState with
        dead_entries := dead, heap_entries := entries, open_archives := r2 }
    rfl rfl h aid b]

lemma eraseP_lockArchive (st : AMState) (x : ArchiveId) (l : List ArchiveId)
    (hx : isOpen st x = true) :
    l.eraseP (fun c => lockArchive st c == some x) = l.eraseP (fun c => c == x) := by
  apply eraseP_congr_pred
  intro c
  by_cases hc : c = x
  · subst hc
    rw [lockArchive_open st c hx]
    simp
  · unfold lockArchive
    cases ho : isOpen st c <;> simp [ho, hc]

/-- One `closeRec` step on a record with exactly one live child link (to the
record at `pb2`, itself with only stale links) among stale ones: the snapshot
fold skips the stale links and recursively closes the live child, which
unlinks itself from this record; the record then unlinks from its own parent
at `pg2` and is erased. -/
lemma closeRec_mid (fuel : Nat) (s : AMState) (i pb2 pg2 : Nat)
    (aA bA gA : ArchiveId) (ra rb rg : Bool)
    (ua va cb cg : List ArchiveId) (ea eb : EntryId)
    (hnd : (s.open_archives.map (fun oa => oa.archive)).Nodup)
    (hA : s.open_archives[i]? = some ⟨aA, ra, ua ++ bA :: va⟩)
    (hstaleA : ∀ c ∈ ua ++ va, isOpen s c = false)
    (hB : s.open_archives[pb2]? = some ⟨bA, rb, cb⟩)
    (hstaleB : ∀ c ∈ cb, isOpen s c = false)
    (hib : i < pb2)
    (hgi : pg2 < i)
    (hG : s.open_archives[pg2]? = some ⟨gA, rg, cg⟩)
    (hpeB : parentEntryOf s bA = some eb)
    (hparB : (entryDataOf s eb).bind (fun ed => ed.parent) = some aA)
    (hpeA : parentEntryOf s aA = some ea)
    (hparA : (entryDataOf s ea).bind (fun ed => ed.parent) = some gA) :
    closeRec (fuel + 1 + 1) s (i : Int) =
      ({ s with
          open_archives :=
            (((s.open_archives.set i ⟨aA, ra, []⟩).eraseIdx pb2).set pg2
              ⟨gA, rg, cg.eraseP
                (childLockPred ((s.open_archives.set i ⟨aA, ra, []⟩).eraseIdx pb2)
                  aA)⟩).eraseIdx i,
          bookmarks :=
            (s.bookmarks.filter
                (livePred s.dead_entries s.heap_entries s.open_archives aA)).filter
              (livePred s.dead_entries s.heap_entries s.open_archives bA),
          res_log := (s.res_log ++ [ResCall.remove aA]) ++ [ResCall.remove bA],
          events :=
            closeEvents
              (pruneEvents s.events
                ((s.bookmarks.filter
                    (livePred s.dead_entries s.heap_entries s.open_archives
                      aA)).length
                  != s.bookmarks.length) (i : Int))
              (((s.bookmarks.filter
                      (livePred s.dead_entries s.heap_entries s.open_archives
                        aA)).filter
                    (livePred s.dead_entries s.heap_entries s.open_archives
                      bA)).length
                != (s.bookmarks.filter
                    (livePred s.dead_entries s.heap_entries s.open_archives
                      aA)).length) (pb2 : Int)
              ++ [Event.archive_closed (i : Int)] }, true) := by
  have hlenA : i < s.open_archives.length := (List.getElem?_eq_some.mp hA).1
  have hlenB : pb2 < s.open_archives.length := (List.getElem?_eq_some.mp hB).1
  simp only [parentEntryOf, archiveDataOf] at hpeA
  simp only [entryDataOf] at hparA
  generalize hf2 : fuel + 1 = f2
  unfold closeRec
  rw [if_neg (by
    simp only [Bool.or_eq_true, decide_eq_true_eq, not_or]
    constructor <;> omega)]
  simp only [Int.toNat_natCast, announce, recordAt, deleteBookmarksInArchive,
    setChildren, removeChildLink,
    parentEntryOf, archiveDataOf, entryDataOf, hA, Option.getD_some]
  rw [List.foldl_append]
  rw [closeFold_stale f2 _ ua]
  · rw [List.foldl_cons]
    rw [lockArchive_open]
    · rw [archiveIndexOpt_some]
      rw [archiveIndex_eq_of _ pb2 bA ⟨bA, rb, cb⟩]
      · rw [if_pos (show (0 : Int) ≤ (pb2 : Int) by omega)]
        rw [← hf2]
        rw [closeRec_leaf fuel _ pb2 i bA aA rb ra cb [] eb]
        · dsimp only
          simp only [List.eraseP_nil]
          rw [List.set_comm _ _ _ (show pb2 ≠ i by omega), List.set_set,
            eraseIdx_set_self]
          rw [livePred_reg s.dead_entries s.heap_entries _ s.open_archives bA]
          · rw [closeFold_stale (fuel + 1) _ va]
            · rw [List.getElem?_eraseIdx]
              rw [if_pos hib, List.getElem?_set_self hlenA]
              simp only [Option.getD_some]
              rw [hpeA]
              dsimp only
              rw [hparA]
              dsimp only
              rw [archiveIndex_eq_of _ pg2 gA ⟨gA, rg, cg⟩]
              · rw [if_pos (show (0 : Int) ≤ (pg2 : Int) by omega),
                  Int.toNat_natCast]
                rw [List.getElem?_eraseIdx, if_pos (show pg2 < pb2 by omega),
                  List.getElem?_set_ne (show i ≠ pg2 by omega), hG]
                rfl
              · dsimp only
                rw [map_eraseIdx_comm, List.map_set]
                rw [set_getElem?_self _ i aA (by rw [List.getElem?_map, hA]; rfl)]
                exact List.Nodup.sublist (List.eraseIdx_sublist _ _) hnd
              · dsimp only
                rw [List.getElem?_eraseIdx, if_pos (show pg2 < pb2 by omega),
                  List.getElem?_set_ne (show i ≠ pg2 by omega)]
                exact hG
              · rfl
            · intro c hc
              have hsc := hstaleA c (List.mem_append.mpr (Or.inr hc))
              unfold isOpen at hsc ⊢
              dsimp only
              rw [any_archive_map, map_eraseIdx_comm, List.map_set]
              rw [set_getElem?_self _ i aA (by rw [List.getElem?_map, hA]; rfl)]
              rw [any_archive_map] at hsc
              exact any_false_of_sublist _ _ _ (List.eraseIdx_sublist _ _) hsc
          · rw [List.map_set]
            exact set_getElem?_self _ i aA (by rw [List.getElem?_map, hA]; rfl)
        · dsimp only
          rw [List.map_set]
          rw [set_getElem?_self _ i aA (by rw [List.getElem?_map, hA]; rfl)]
          exact hnd
        · dsimp only
          rw [List.getElem?_set_ne (show i ≠ pb2 by omega)]
          exact hB
        · intro c hc
          rw [isOpen_congr _ s _ c]
          · exact hstaleB c hc
          · dsimp only
            rw [List.map_set]
            exact set_getElem?_self _ i aA (by rw [List.getElem?_map, hA]; rfl)
        · exact hpeB
        · exact hparB
        · dsimp only
          rw [List.getElem?_set_self hlenA]
        · omega
      · dsimp only
        rw [List.map_set]
        rw [set_getElem?_self _ i aA (by rw [List.getElem?_map, hA]; rfl)]
        exact hnd
      · dsimp only
        rw [List.getElem?_set_ne (show i ≠ pb2 by omega)]
        exact hB
      · rfl
    · apply isOpen_of_getElem _ pb2 ⟨bA, rb, cb⟩
      dsimp only
      rw [List.getElem?_set_ne (show i ≠ pb2 by omega)]
      exact hB
  · intro c hc
    rw [isOpen_congr _ s _ c]
    · exact hstaleA c (List.mem_append.mpr (Or.inl hc))
    · dsimp only
      rw [List.map_set]
      exact set_getElem?_self _ i aA (by rw [List.getElem?_map, hA]; rfl)

/-- The full two-level cascade of `closeRec` on an arbitrary state: closing the
record at `pg` (child list: one live link to the record at `pa` among stale
ones) recursively closes the record at `pa` (one live link to the leaf record
at `pb`) and the leaf, prunes the bookmarks of all three archives, logs a
ResourceManager removal for each, and erases the closed archive's link from
the parent record at `pp`. -/
lemma closeRec_top (fuel : Nat) (s : AMState) (pp pg pa pb : Nat)
    (p g a b : ArchiveId) (rp rg ra rb : Bool)
    (cp ug vg ua va cb : List ArchiveId) (eg ea eb : EntryId)
    (hnd : (s.open_archives.map (fun oa => oa.archive)).Nodup)
    (hP : s.open_archives[pp]? = some ⟨p, rp, cp⟩)
    (hG : s.open_archives[pg]? = some ⟨g, rg, ug ++ a :: vg⟩)
    (hA : s.open_archives[pa]? = some ⟨a, ra, ua ++ b :: va⟩)
    (hB : s.open_archives[pb]? = some ⟨b, rb, cb⟩)
    (hppg : pp < pg) (hga : pg < pa) (hab : pa < pb)
    (hstaleG : ∀ c ∈ ug ++ vg, isOpen s c = false)
    (hstaleA : ∀ c ∈ ua ++ va, isOpen s c = false)
    (hstaleB : ∀ c ∈ cb, isOpen s c = false)
    (hpeG : parentEntryOf s g = some eg)
    (hparG : (entryDataOf s eg).bind (fun ed => ed.parent) = some p)
    (hpeA : parentEntryOf s a = some ea)
    (hparA : (entryDataOf s ea).bind (fun ed => ed.parent) = some g)
    (hpeB : parentEntryOf s b = some eb)
    (hparB : (entryDataOf s eb).bind (fun ed => ed.parent) = some a) :
    closeRec (fuel + 1 + 1 + 1) s (pg : Int) =
      ({ s with
          open_archives := (((s.open_archives.set pp
              ⟨p, rp, cp.eraseP (fun c => c == g)⟩).eraseIdx pb).eraseIdx
                pa).eraseIdx pg,
          bookmarks :=
            ((s.bookmarks.filter
                  (livePred s.dead_entries s.heap_entries s.open_archives
                    g)).filter
                (livePred s.dead_entries s.heap_entries s.open_archives
                  a)).filter
              (livePred s.dead_entries s.heap_entries s.open_archives b),
          res_log := ((s.res_log ++ [ResCall.remove g]) ++ [ResCall.remove a])
            ++ [ResCall.remove b],
          events :=
            closeEvents
                (pruneEvents
                  (pruneEvents s.events
                    ((s.bookmarks.filter
                        (livePred s.dead_entries s.heap_entries s.open_archives
                          g)).length
                      != s.bookmarks.length) (pg : Int))
                  (((s.bookmarks.filter
                          (livePred s.dead_entries s.heap_entries
                            s.open_archives g)).filter
                        (livePred s.dead_entries s.heap_entries s.open_archives
                          a)).length
                    != (s.bookmarks.filter
                        (livePred s.dead_entries s.heap_entries s.open_archives
                          g)).length) (pa : Int))
                ((((s.bookmarks.filter
                          (livePred s.dead_entries s.heap_entries
                            s.open_archives g)).filter
                        (livePred s.dead_entries s.heap_entries s.open_archives
                          a)).filter
                      (livePred s.dead_entries s.heap_entries s.open_archives
                        b)).length
                  != ((s.bookmarks.filter
                          (livePred s.dead_entries s.heap_entries
                            s.open_archives g)).filter
                        (livePred s.dead_entries s.heap_entries s.open_archives
                          a)).length) (pb : Int)
              ++ [Event.archive_closed (pa : Int)]
              ++ [Event.archive_closed (pg : Int)] }, true) := by
  have hlenP : pp < s.open_archives.length := (List.getElem?_eq_some.mp hP).1
  have hlenG : pg < s.open_archives.length := (List.getElem?_eq_some.mp hG).1
  have hlenA : pa < s.open_archives.length := (List.getElem?_eq_some.mp hA).1
  have hlenB : pb < s.open_archives.length := (List.getElem?_eq_some.mp hB).1
  simp only [parentEntryOf, archiveDataOf] at hpeG
  simp only [entryDataOf] at hparG
  generalize hf2 : fuel + 1 + 1 = f2
  unfold closeRec
  rw [if_neg (by
    simp only [Bool.or_eq_true, decide_eq_true_eq, not_or]
    constructor <;> omega)]
  simp only [Int.toNat_natCast, announce, recordAt, deleteBookmarksInArchive,
    setChildren, removeChildLink,
    parentEntryOf, archiveDataOf, entryDataOf, hG, Option.getD_some]
  rw [List.foldl_append]
  rw [closeFold_stale f2 _ ug]
  · rw [List.foldl_cons]
    rw [lockArchive_open]
    · rw [archiveIndexOpt_some]
      rw [archiveIndex_eq_of _ pa a ⟨a, ra, ua ++ b :: va⟩]
      · rw [if_pos (show (0 : Int) ≤ (pa : Int) by omega)]
        rw [← hf2]
        rw [closeRec_mid fuel _ pa pb pg a b g ra rb rg ua va cb [] ea eb]
        · dsimp only
          simp only [List.eraseP_nil]
          rw [← eraseIdx_set_lt _ pg pb _ (show pg < pb by omega)]
          rw [List.set_comm _ _ _ (show pa ≠ pg by omega)]
          rw [List.set_set]
          rw [eraseIdx_set_lt _ pa pb _ (show pa < pb by omega)]
          rw [eraseIdx_set_self]
          rw [livePred_reg s.dead_entries s.heap_entries _ s.open_archives a]
          · rw [livePred_reg s.dead_entries s.heap_entries _ s.open_archives b]
            · rw [closeFold_stale (fuel + 1 + 1) _ vg]
              · rw [List.getElem?_eraseIdx]
                rw [if_pos (show pg < pa from hga)]
                rw [List.getElem?_eraseIdx]
                rw [if_pos (show pg < pb by omega)]
                rw [List.getElem?_set_self hlenG]
                simp only [Option.getD_some]
                rw [hpeG]
                dsimp only
                rw [hparG]
                dsimp only
                rw [archiveIndex_eq_of _ pp p ⟨p, rp, cp⟩]
                · rw [if_pos (show (0 : Int) ≤ (pp : Int) by omega),
                    Int.toNat_natCast]
                  rw [List.getElem?_eraseIdx
                    ((s.open_archives.set pg ⟨g, rg, []⟩).eraseIdx pb) pa pp]
                  rw [if_pos (show pp < pa by omega)]
                  rw [List.getElem?_eraseIdx
                    (s.open_archives.set pg ⟨g, rg, []⟩) pb pp]
                  rw [if_pos (show pp < pb by omega)]
                  rw [List.getElem?_set_ne (show pg ≠ pp by omega), hP]
                  dsimp only
                  rw [eraseP_lockArchive]
                  · rw [← eraseIdx_set_lt _ pp pa _ (show pp < pa by omega)]
                    rw [← eraseIdx_set_lt _ pp pb _ (show pp < pb by omega)]
                    rw [List.set_comm _ _ _ (show pg ≠ pp by omega)]
                    rw [eraseIdx_set_lt _ pg pb _ (show pg < pb by omega)]
                    rw [eraseIdx_set_lt _ pg pa _ (show pg < pa by omega)]
                    rw [eraseIdx_set_self]
                    rfl
                  · apply isOpen_of_getElem _ pg ⟨g, rg, []⟩
                    dsimp only
                    rw [List.getElem?_eraseIdx]
                    rw [if_pos (show pg < pa from hga)]
                    rw [List.getElem?_eraseIdx]
                    rw [if_pos (show pg < pb by omega)]
                    rw [List.getElem?_set_self hlenG]
                · dsimp only
                  rw [map_eraseIdx_comm, map_eraseIdx_comm, List.map_set]
                  rw [set_getElem?_self _ pg g
                    (by rw [List.getElem?_map, hG]; rfl)]
                  exact List.Nodup.sublist
                    (List.Sublist.trans (List.eraseIdx_sublist _ _)
                      (List.eraseIdx_sublist _ _)) hnd
                · dsimp only
                  rw [List.getElem?_eraseIdx
                    ((s.open_archives.set pg ⟨g, rg, []⟩).eraseIdx pb) pa pp]
                  rw [if_pos (show pp < pa by omega)]
                  rw [List.getElem?_eraseIdx
                    (s.open_archives.set pg ⟨g, rg, []⟩) pb pp]
                  rw [if_pos (show pp < pb by omega)]
                  rw [List.getElem?_set_ne (show pg ≠ pp by omega)]
                  exact hP
                · rfl
              · intro c hc
                have hsc := hstaleG c (List.mem_append.mpr (Or.inr hc))
                unfold isOpen at hsc ⊢
                dsimp only
                rw [any_archive_map, map_eraseIdx_comm, map_eraseIdx_comm,
                  List.map_set]
                rw [set_getElem?_self _ pg g
                  (by rw [List.getElem?_map, hG]; rfl)]
                rw [any_archive_map] at hsc
                exact any_false_of_sublist _ _ _
                  (List.Sublist.trans (List.eraseIdx_sublist _ _)
                    (List.eraseIdx_sublist _ _)) hsc
            · rw [List.map_set]
              exact set_getElem?_self _ pg g (by rw [List.getElem?_map, hG]; rfl)
          · rw [List.map_set]
            exact set_getElem?_self _ pg g (by rw [List.getElem?_map, hG]; rfl)
        · dsimp only
          rw [List.map_set]
          rw [set_getElem?_self _ pg g (by rw [List.getElem?_map, hG]; rfl)]
          exact hnd
        · dsimp only
          rw [List.getElem?_set_ne (show pg ≠ pa by omega)]
          exact hA
        · intro c hc
          rw [isOpen_congr _ s _ c]
          · exact hstaleA c hc
          · dsimp only
            rw [List.map_set]
            exact set_getElem?_self _ pg g (by rw [List.getElem?_map, hG]; rfl)
        · dsimp only
          rw [List.getElem?_set_ne (show pg ≠ pb by omega)]
          exact hB
        · intro c hc
          rw [isOpen_congr _ s _ c]
          · exact hstaleB c hc
          · dsimp only
            rw [List.map_set]
            exact set_getElem?_self _ pg g (by rw [List.getElem?_map, hG]; rfl)
        · omega
        · omega
        · dsimp only
          rw [List.getElem?_set_self hlenG]
        · exact hpeB
        · exact hparB
        · exact hpeA
        · exact hparA
      · dsimp only
        rw [List.map_set]
        rw [set_getElem?_self _ pg g (by rw [List.getElem?_map, hG]; rfl)]
        exact hnd
      · dsimp only
        rw [List.getElem?_set_ne (show pg ≠ pa by omega)]
        exact hA
      · rfl
    · apply isOpen_of_getElem _ pa ⟨a, ra, ua ++ b :: va⟩
      dsimp only
      rw [List.getElem?_set_ne (show pg ≠ pa by omega)]
      exact hA
  · intro c hc
    rw [isOpen_congr _ s _ c]
    · exact hstaleG c (List.mem_append.mpr (Or.inl hc))
    · dsimp only
      rw [List.map_set]
      exact set_getElem?_self _ pg g (by rw [List.getElem?_map, hG]; rfl)

lemma livePred_eq (s : AMState) (aid : ArchiveId) (x : EntryId) :
    livePred s.dead_entries s.heap_entries s.open_archives aid x
      = (entryLive s x && !(entryOwner s x == some aid)) := by
  have hcar : entryLive
      ({ emptyState with
          dead_entries := s.dead_entries, heap_entries := s.heap_entries,
          open_archives := s.open_archives }) x
      = entryLive s x := rfl
  have hdat : entryDataOf
      ({ emptyState with
          dead_entries := s.dead_entries, heap_entries := s.heap_entries,
          open_archives := s.open_archives }) x
      = entryDataOf s x := rfl
  unfold livePred bookmarkPruneArchive lockEntry
  rw [hcar, hdat]
  cases hl : entryLive s x with
  | false => rfl
  | true =>
    rw [if_pos rfl]
    cases hd : entryDataOf s x with
    | none =>
      exfalso
      unfold entryLive at hl
      rw [hd] at hl
      simp at hl
    | some ed =>
      simp only [entryOwner]
      rw [hd]
      simp

/-- C1: for every state whose registry holds, at positions
`pp < pg < pa < pb`, a parent record P, an archive record G opened from one
of P's entries, a child record A opened from one of G's entries, and a
grandchild record B opened from one of A's entries — where G's only
still-live child link is A, A's only still-live child link is B, and B has no
live child links — `closeArchive pg` returns true, removes exactly the three
records G, A, B from the registry while erasing P's weak child link to G,
prunes exactly the bookmarks that are dead or whose target entry lives in G,
A or B, and logs a ResourceManager removal for each of the three, in order. -/
theorem closeArchive_cascade (s : AMState) (pp pg pa pb : Nat)
    (p g a b : ArchiveId) (rp rg ra rb : Bool)
    (cp ug vg ua va cb : List ArchiveId) (eg ea eb : EntryId)
    (hnd : (s.open_archives.map (fun oa => oa.archive)).Nodup)
    (hP : s.open_archives[pp]? = some ⟨p, rp, cp⟩)
    (hG : s.open_archives[pg]? = some ⟨g, rg, ug ++ a :: vg⟩)
    (hA : s.open_archives[pa]? = some ⟨a, ra, ua ++ b :: va⟩)
    (hB : s.open_archives[pb]? = some ⟨b, rb, cb⟩)
    (hppg : pp < pg) (hga : pg < pa) (hab : pa < pb)
    (hstaleG : ∀ c ∈ ug ++ vg, isOpen s c = false)
    (hstaleA : ∀ c ∈ ua ++ va, isOpen s c = false)
    (hstaleB : ∀ c ∈ cb, isOpen s c = false)
    (hpeG : parentEntryOf s g = some eg)
    (hparG : (entryDataOf s eg).bind (fun ed => ed.parent) = some p)
    (hpeA : parentEntryOf s a = some ea)
    (hparA : (entryDataOf s ea).bind (fun ed => ed.parent) = some g)
    (hpeB : parentEntryOf s b = some eb)
    (hparB : (entryDataOf s eb).bind (fun ed => ed.parent) = some a) :
    (closeArchive s (pg : Int)).2 = true
    ∧ (closeArchive s (pg : Int)).1.open_archives
        = (((s.open_archives.set pp
            ⟨p, rp, cp.eraseP (fun c => c == g)⟩).eraseIdx pb).eraseIdx
              pa).eraseIdx pg
    ∧ (closeArchive s (pg : Int)).1.bookmarks
        = s.bookmarks.filter (fun x => entryLive s x
            && !(entryOwner s x == some g) && !(entryOwner s x == some a)
            && !(entryOwner s x == some b))
    ∧ (closeArchive s (pg : Int)).1.res_log
        = s.res_log ++ [ResCall.remove g, ResCall.remove a, ResCall.remove b] := by
  have hlenB : pb < s.open_archives.length := (List.getElem?_eq_some.mp hB).1
  have hrun := closeRec_top (s.open_archives.length - 2) s pp pg pa pb
    p g a b rp rg ra rb cp ug vg ua va cb eg ea eb hnd hP hG hA hB
    hppg hga hab hstaleG hstaleA hstaleB hpeG hparG hpeA hparA hpeB hparB
  have hfuel : s.open_archives.length + 1
      = (s.open_archives.length - 2) + 1 + 1 + 1 := by omega
  unfold closeArchive
  rw [hfuel, hrun]
  refine ⟨rfl, rfl, ?_, ?_⟩
  · show ((s.bookmarks.filter
          (livePred s.dead_entries s.heap_entries s.open_archives g)).filter
        (livePred s.dead_entries s.heap_entries s.open_archives a)).filter
      (livePred s.dead_entries s.heap_entries s.open_archives b) = _
    rw [List.filter_filter, List.filter_filter]
    apply List.filter_congr
    intro x _
    rw [livePred_eq s g x, livePred_eq s a x, livePred_eq s b x]
    cases entryLive s x <;> cases entryOwner s x == some g <;>
      cases entryOwner s x == some a <;> cases entryOwner s x == some b <;> rfl
  · show ((s.res_log ++ [ResCall.remove g]) ++ [ResCall.remove a])
        ++ [ResCall.remove b] = _
    simp [List.append_assoc]

/-! ## C7: auto-expansion of root wads in zip/directory resource archives -/

/-- C7: with the auto-expansion toggle enabled, adding the managed zip
archive a.zip (containing the wad-typed root entry e1m1.wad and a non-wad
entry) registers two records: a.zip (resource) and the wad, opened silently
(no archive_opened event), managed, and child-linked to a.zip's record;
entry types are sniffed when unknown.  Closing a.zip then closes both. -/
theorem addArchive_auto_expands (env : CodecEnv)
    (h1 : env.auto_open_wads_root = true)
    (h2 : env.detectType 1 = "wad")
    (h3 : env.isWadData 11 = true)
    (h4 : env.codecNewEntry "wad" 1 = 5)
    (h5 : env.codecOpenEntryOk "wad" 1 = true) :
    addArchive env S7 (some 0) = (S7res, true)
    ∧ (closeArchive S7res 0).1.open_archives = []
    ∧ (closeArchive S7res 0).2 = true := by
  refine ⟨?_, by decide, by decide⟩
  show (openOps env (1 + 1 + 1)).addArchive S7 (some 0) = (S7res, true)
  rw [openOps_succ_addArchive]
  unfold addArchiveStep
  dsimp only
  rw [h1]
  have openOps_one : openOps env 1 =
      ⟨addArchiveStep env (openOps env 0).openEntry,
       openEntryStep env (openOps env 0).addArchive⟩ := rfl
  simp [S7, S7res, emptyState, formatIdOf, archiveDataOf, rootEntriesOf, List.lookup,
    typeIdOf, entryDataOf, setEntryType, announce, parentEntryOf, addChildLink,
    archiveIndex, archiveIndexAux, detectFormatEntry, openOps_succ_openEntry,
    openOps_succ_addArchive, openOps_one, openEntryStep, addArchiveStep, h2, h3, h4, h5]

/-- Witness for C7 under the concrete auto-expansion environment. -/
theorem addArchive_auto_expands_witness :
    env7.auto_open_wads_root = true ∧ addArchive env7 S7 (some 0) = (S7res, true) :=
  ⟨rfl, (addArchive_auto_expands env7 rfl rfl rfl rfl rfl).1⟩

/-! ## C9: directory bookmark pruning -/

lemma walkPasses_eq_underChain (dirs : List (DirId × DirData)) (root node : DirId) :
    ∀ (fuel : Nat) (d : DirId),
      walkPasses dirs root node fuel d = (underChain dirs root fuel d).contains node := by
  intro fuel
  induction fuel with
  | zero => intro d; rfl
  | succ f ih =>
    intro d
    unfold walkPasses underChain
    by_cases h1 : (d == root) = true
    · rw [if_pos h1, if_pos h1]
      rfl
    · rw [if_neg h1, if_neg h1, List.contains_cons]
      by_cases h2 : (d == node) = true
      · rw [if_pos h2]
        have hnd : (node == d) = true := by
          have : d = node := by simpa using h2
          simp [this]
        rw [hnd]
        rfl
      · rw [if_neg h2]
        have hnd : (node == d) = false := by
          have : ¬(d = node) := by simpa using h2
          simp only [beq_eq_false_iff_ne]
          exact fun hc => this hc.symm
        rw [hnd, Bool.false_or]
        cases hp : (dirs.lookup d).bind (fun dd => dd.parentDir) with
        | some p => exact ih p
        | none => rfl

lemma findIdx_eraseIdx_eraseP (p : α → Bool) :
    ∀ l : List α,
      (match l.findIdx? p with
       | some i => l.eraseIdx i
       | none => l) = l.eraseP p := by
  intro l
  induction l with
  | nil => rfl
  | cons a l ih =>
    rw [List.findIdx?_cons]
    by_cases hp : p a = true
    · rw [if_pos hp]
      simp [List.eraseP_cons, hp, List.eraseIdx_cons_zero]
    · have hpf : p a = false := Bool.eq_false_iff.mpr hp
      rw [if_neg hp, List.findIdx?_succ]
      cases hfi : l.findIdx? p with
      | some i =>
        rw [hfi] at ih
        dsimp only at ih
        simp only [hfi, Option.map_some', List.eraseIdx_cons_succ, List.eraseP_cons, hpf,
          cond_false]
        rw [ih]
      | none =>
        rw [hfi] at ih
        dsimp only at ih
        simp only [hfi, Option.map_none', List.eraseP_cons, hpf, cond_false]
        rw [← ih]

lemma deleteBookmarkEntry_frame (s : AMState) (e : EntryId) :
    ∃ evs, (deleteBookmarkEntry s e).1 =
      { s with bookmarks := s.bookmarks.eraseP (fun b => entryLive s b && b == e),
               events := evs } := by
  have hgen := findIdx_eraseIdx_eraseP (fun b => entryLive s b && b == e) s.bookmarks
  unfold deleteBookmarkEntry
  cases hfi : s.bookmarks.findIdx? (fun b => entryLive s b && b == e) with
  | some i =>
    rw [hfi] at hgen
    dsimp only at hgen
    refine ⟨s.events ++ [Event.bookmarks_changed], ?_⟩
    dsimp only [announce]
    rw [hgen]
  | none =>
    rw [hfi] at hgen
    dsimp only at hgen
    refine ⟨s.events, ?_⟩
    rw [← hgen]

lemma kept_eq_not_prune (s : AMState) (archive : ArchiveId) (root nodeId : DirId)
    (b : EntryId) :
    keptOnDirDelete s archive root nodeId b = !bookmarkPruneDir s archive root nodeId b := by
  unfold keptOnDirDelete bookmarkPruneDir lockEntry
  cases hl : entryLive s b with
  | false => simp [hl]
  | true =>
    cases he : entryDataOf s b with
    | none =>
      exfalso
      unfold entryLive at hl
      rw [he] at hl
      simp at hl
    | some ed =>
      simp only [hl, if_true, he, Bool.true_and, entryOwner, parentDirOfEntry,
        walkPasses_eq_underChain]

/-- C9: `deleteBookmarksInDir(node)` removes exactly the bookmark of the
node's own directory entry, every bookmark whose weak reference no longer
resolves, and every bookmark of the node's archive whose ancestor-directory
chain (walked up toward the archive root) passes through the node; bookmarks
in sibling directories and in other archives survive. -/
theorem deleteBookmarksInDir_exact (s : AMState) (nodeId : DirId) (nd : DirData)
    (ad : ArchiveData) (hnode : dirDataOf s nodeId = some nd)
    (harch : archiveDataOf s nd.archive = some ad) :
    (deleteBookmarksInDir s nodeId).1.bookmarks =
      (s.bookmarks.eraseP (fun b => entryLive s b && b == nd.dirEnt)).filter
        (keptOnDirDelete s nd.archive ad.rootDir nodeId) := by
  unfold deleteBookmarksInDir
  rw [hnode]
  dsimp only
  rw [harch]
  dsimp only
  obtain ⟨evs, hs1⟩ := deleteBookmarkEntry_frame s nd.dirEnt
  rw [hs1]
  dsimp only
  apply List.filter_congr
  intro b _
  rw [show bookmarkPruneDir
      { s with bookmarks := s.bookmarks.eraseP (fun b => entryLive s b && b == nd.dirEnt),
               events := evs } nd.archive ad.rootDir nodeId b
    = bookmarkPruneDir s nd.archive ad.rootDir nodeId b from rfl]
  rw [← kept_eq_not_prune]

/-- Witness for C9: pruning on the node directory keeps only the sibling's
bookmark. -/
theorem deleteBookmarksInDir_exact_witness :
    dirDataOf W9 1 = some ⟨some 0, 5, 1⟩ ∧
    (deleteBookmarksInDir W9 1).1.bookmarks = [7] := by
  refine ⟨rfl, ?_⟩
  rw [deleteBookmarksInDir_exact W9 1 ⟨some 0, 5, 1⟩ ⟨"a.wad", "wad", none, 0, []⟩ rfl rfl]
  decide

/-- Witness for C2: reopening the registered path x.wad silently. -/
theorem openArchive_reopen_witness :
    getArchiveByName W2 "x.wad" = some 3 ∧
    openArchivePath trivEnv 1 W2 "x.wad" true true = (W2, some 3) :=
  ⟨rfl, (openArchive_reopen trivEnv 1 W2 "x.wad" 3 true rfl).1⟩

/-- Witness for C3: an unrecognized path fails and only the error string
changes. -/
theorem openArchive_failure_atomic_witness :
    detectFormatPath trivEnv "y" = none ∧
    openArchivePath trivEnv 1 W3 "y" true false =
      ({ W3 with global_error := "Unsupported or invalid Archive format" }, none) :=
  ⟨rfl,
   (openArchive_failure_atomic trivEnv 1 W3 "y" 4 ⟨"n", "txt", none, 0, 9⟩ true false rfl rfl rfl
     (fun oa h => absurd h (List.not_mem_nil oa))).1 rfl⟩

/-- Witness for C4: the lookup hits resource archive 5, never the
non-resource archive 6. -/
theorem nonResource_never_searched_witness :
    getResourceEntry envW4 W4 "X" none = some 50 ∧ entryOwner W4 50 ≠ some 6 := by
  have hent : ∀ a n e, envW4.archiveEntry a n = some e → entryOwner W4 e = some a := by
    intro a n e h
    dsimp only [envW4, trivEnv] at h
    by_cases hc : (a == 5 && n == "X") = true
    · rw [if_pos hc] at h
      simp only [Bool.and_eq_true, beq_iff_eq] at hc
      have he : e = 50 := (Option.some.inj h).symm
      subst he
      rw [hc.1]
      rfl
    · rw [if_neg hc] at h
      exact Option.noConfusion h
  exact ⟨rfl, (nonResource_never_searched envW4 W4 6 hent
    (fun a o e h => Option.noConfusion h)
    (fun a o e h => absurd h (List.not_mem_nil e))
    (by decide) (by decide)).1 "X" none 50 rfl⟩

/-- Witness for C5: the base archive's matches come first. -/
theorem resource_search_order_witness :
    W5.base_resource_archive = some 2 ∧
    findAllResourceEntries trivEnv W5 0 none =
      trivEnv.findAll 2 0 ++
        (W5.open_archives.filter (fun oa => oa.resource && !(some oa.archive == none))).flatMap
          (fun oa => trivEnv.findAll oa.archive 0) :=
  ⟨rfl, (resource_search_order trivEnv W5 2 rfl).1 0 none⟩

/-- Witness for C6: requesting index -1 clears the active base archive. -/
theorem openBaseResource_clear_witness :
    (openBaseResource trivEnv W6 (-1)).1.base_resource_archive = none
    ∧ (openBaseResource trivEnv W6 (-1)).2 = false :=
  have h := openBaseResource_clear trivEnv W6 (-1) (fun b _ => by decide) (Or.inl rfl)
  ⟨h.2.1, h.1⟩

/-- Witness for C1: in the concrete four-archive scenario (P at 0 with child
G, G at 1 with child A and a stale link, A at 2 with child B, leaf B at 3),
closing G removes G, A and B, leaves only P (with no child links), keeps only
the bookmarks that still resolve (one in P and P's entry for G), and logs the
three ResourceManager removals in order. -/
theorem closeArchive_cascade_witness :
    ((C1State true true true true).open_archives.map (fun oa => oa.archive)).Nodup
    ∧ (C1State true true true true).open_archives[1]?
        = some ⟨1, true, [] ++ 2 :: [7]⟩
    ∧ (closeArchive (C1State true true true true) ((1 : Nat) : Int)).2 = true
    ∧ (closeArchive (C1State true true true true)
        ((1 : Nat) : Int)).1.open_archives = [⟨0, true, []⟩]
    ∧ (closeArchive (C1State true true true true) ((1 : Nat) : Int)).1.bookmarks
        = [20, 10]
    ∧ (closeArchive (C1State true true true true) ((1 : Nat) : Int)).1.res_log
        = [ResCall.remove 1, ResCall.remove 2, ResCall.remove 3] :=
  have h := closeArchive_cascade (C1State true true true true) 0 1 2 3
    0 1 2 3 true true true true [1] [] [7] [] [] [] 10 11 12
    (by decide) rfl rfl rfl rfl
    (by decide) (by decide) (by decide)
    (by decide) (by decide) (by decide)
    rfl rfl rfl rfl rfl rfl
  ⟨by decide, rfl, h.1, h.2.1.trans (by decide), h.2.2.1.trans (by decide),
    h.2.2.2.trans (by decide)⟩

end Slade
